import Mathlib

/-!
Verification of the notes client: the hand-rolled protobuf wire codec
(src/ui/src/lib/protobuf/notes.ts) and the cache reconciler
(the svelte-query notes module: sortNotes / upsertNote / applyDelta / removeNote).

Conventions of the shallow embedding:
- A byte buffer (Uint8Array) is a `List Nat` whose elements are bytes.
- JavaScript BigInt arithmetic on non-negative values is Nat arithmetic.
- Text fields are modeled as their UTF-8 byte sequences (`List Nat`);
  TextEncoder/TextDecoder are the identity on that representation.
- Fallible operations (JS throw) return `Option`, `none` meaning a thrown error.
- `id`/timestamp/version values (JS number or bigint, always non-negative
  here) are `Nat`.
-/

namespace NotesApp

/-- JS constant Number.MAX_SAFE_INTEGER = 2^53 - 1. -/
def MAX_SAFE_INTEGER : Nat := 2 ^ 53 - 1

/-- A JS number argument to the codec: either a finite integer-valued number,
or a non-finite value (NaN or an infinity). Finite non-integers are not
modeled (they fail the same Number.isSafeInteger check as out-of-range
integers in the source). -/
inductive JsNum
  | int (v : Int)
  | nonFinite
deriving Repr, DecidableEq

/-- Function numberToVarint of notes.ts: rejects non-finite and negative
values, and values outside the safe-integer range; otherwise returns the
value for varint encoding. -/
def numberToVarint : JsNum → Option Nat
  | .nonFinite => none
  | .int v =>
    if v < 0 then none
    else if (MAX_SAFE_INTEGER : Int) < v then none
    else some v.toNat

/-- Writer.writeVarint: base-128 groups, 7 payload bits per byte,
low group first, high bit set on every byte but the last.
(`current & 0x7fn | 0x80n` is `current % 0x80 + 0x80`, and
`current >>= 7n` is `current / 0x80`, for non-negative BigInt.) -/
def writeVarint (n : Nat) : List Nat :=
  if h : n < 0x80 then [n]
  else (n % 0x80 + 0x80) :: writeVarint (n / 0x80)
termination_by n
decreasing_by omega

/-- Writer.writeTag: the varint of `(fieldNumber << 3) | wireType`. -/
def writeTag (fieldNumber wireType : Nat) : List Nat :=
  writeVarint (fieldNumber <<< 3 ||| wireType)

/-- Writer.writeInt64: tag with wire type 0, then the varint of the value
produced by numberToVarint (an error there aborts the encode). -/
def writeInt64 (fieldNumber : Nat) (value : JsNum) : Option (List Nat) :=
  (numberToVarint value).map fun n => writeTag fieldNumber 0 ++ writeVarint n

/-- Writer.writeString: tag with wire type 2, varint byte-length prefix,
then the UTF-8 bytes. -/
def writeString (fieldNumber : Nat) (value : List Nat) : List Nat :=
  writeTag fieldNumber 2 ++ writeVarint value.length ++ value

/-- Writer.writeMessage: same layout as writeString, payload is a nested
message encoding. -/
def writeMessage (fieldNumber : Nat) (payload : List Nat) : List Nat :=
  writeTag fieldNumber 2 ++ writeVarint payload.length ++ payload

/-- Reader.readVarint's loop. `byte & 0x7f` is `b % 0x80`;
`(byte & 0x80) === 0` is `b % 0x100 < 0x80` (buffer elements are bytes);
the `|=` accumulates disjoint 7-bit groups. Running past the end of the
buffer or needing a shift beyond 63 bits is an error. -/
def readVarintAux : List Nat → Nat → Nat → Option (Nat × List Nat)
  | [], _, _ => none
  | b :: rest, shift, acc =>
    let acc' := acc ||| (b % 0x80) <<< shift
    if b % 0x100 < 0x80 then some (acc', rest)
    else if shift + 7 > 63 then none
    else readVarintAux rest (shift + 7) acc'

/-- Reader.readVarint, starting at shift 0 with accumulator 0. -/
def readVarint (l : List Nat) : Option (Nat × List Nat) := readVarintAux l 0 0

/-- Reader.readTag: a varint split into field number (`raw >>> 3`, a JS
uint32 operation, hence the reduction modulo 2^32) and wire type
(`raw & 0b111`). Exact for tag values below 2^53 (the conversion
`Number(bigint)` in the source is exact in that range). -/
def readTag (l : List Nat) : Option (Nat × Nat × List Nat) :=
  match readVarint l with
  | none => none
  | some (raw, rest) => some (raw % 2 ^ 32 / 8, raw % 8, rest)

/-- Reader.readInt64: a varint, rejected when it exceeds
Number.MAX_SAFE_INTEGER. -/
def readInt64 (l : List Nat) : Option (Nat × List Nat) :=
  match readVarint l with
  | none => none
  | some (v, rest) => if MAX_SAFE_INTEGER < v then none else some (v, rest)

/-- Reader.readBytes: a varint length prefix, then that many payload bytes;
an error if the declared length runs past the end of the buffer. -/
def readBytes (l : List Nat) : Option (List Nat × List Nat) :=
  match readVarint l with
  | none => none
  | some (len, rest) =>
    if rest.length < len then none else some (rest.take len, rest.drop len)

/-- Reader.readString: readBytes, decoded as UTF-8 (identity in this
byte-sequence model of text). -/
def readString (l : List Nat) : Option (List Nat × List Nat) := readBytes l

/-- Reader.skipField: wire type 0 consumes one varint, wire type 2 consumes
a varint length prefix plus that many bytes (bounds-checked); any other
wire type is an error. -/
def skipField (wireType : Nat) (l : List Nat) : Option (List Nat) :=
  if wireType = 0 then
    match readVarint l with
    | none => none
    | some (_, rest) => some rest
  else if wireType = 2 then
    match readVarint l with
    | none => none
    | some (len, rest) => if rest.length < len then none else some (rest.drop len)
  else none

/-! Arithmetic facts about the varint encoding. -/

theorem lor_lowhigh : ∀ (s a b : Nat), a < 2 ^ s → a ||| b * 2 ^ s = a + b * 2 ^ s := by
  intro s
  induction s with
  | zero =>
    intro a b ha
    interval_cases a
    simp
  | succ s ih =>
    intro a b ha
    have key := Nat.lor_bit (decide (a % 2 = 1)) (a / 2) false (b * 2 ^ s)
    have e1 : Nat.bit (decide (a % 2 = 1)) (a / 2) = a := by
      rcases Nat.mod_two_eq_zero_or_one a with h | h <;> simp [Nat.bit_val, h] <;> omega
    have e2 : Nat.bit false (b * 2 ^ s) = b * 2 ^ (s + 1) := by
      simp [Nat.bit_val]
      ring
    have ha' : a / 2 < 2 ^ s := by
      have h2 : 2 ^ (s + 1) = 2 * 2 ^ s := by ring
      omega
    rw [e1, e2, Bool.or_false] at key
    rw [key, ih _ _ ha']
    have e3 : Nat.bit (decide (a % 2 = 1)) (a / 2 + b * 2 ^ s)
        = 2 * (a / 2 + b * 2 ^ s) + a % 2 := by
      rcases Nat.mod_two_eq_zero_or_one a with h | h <;> simp [Nat.bit_val, h]
    rw [e3]
    have h2 : b * 2 ^ (s + 1) = 2 * (b * 2 ^ s) := by ring
    omega

theorem lor_shift (a b s : Nat) (h : a < 2 ^ s) : a ||| b <<< s = a + b * 2 ^ s := by
  rw [Nat.shiftLeft_eq]
  exact lor_lowhigh s a b h

theorem readVarintAux_write (n : Nat) : ∀ (shift acc : Nat) (rest : List Nat),
    n < 2 ^ (63 - shift) → shift ≤ 63 → acc < 2 ^ shift →
    readVarintAux (writeVarint n ++ rest) shift acc = some (acc + n * 2 ^ shift, rest) := by
  induction n using Nat.strong_induction_on with
  | _ n ih =>
    intro shift acc rest hn hs hacc
    by_cases h : n < 0x80
    · rw [writeVarint]
      simp only [h, dite_true, List.cons_append, List.nil_append, readVarintAux]
      have hb : n % 0x100 < 0x80 := by omega
      have hm : n % 0x80 = n := by omega
      simp only [hb, if_true, hm]
      rw [lor_shift _ _ _ hacc]
    · rw [writeVarint]
      simp only [h, dite_false, List.cons_append, readVarintAux]
      have hb : ¬ (n % 0x80 + 0x80) % 0x100 < 0x80 := by omega
      simp only [hb, if_false]
      have hshift : shift ≤ 55 := by
        by_contra hc
        have h7 : 63 - shift ≤ 7 := by omega
        have : (2 : Nat) ^ (63 - shift) ≤ 2 ^ 7 := Nat.pow_le_pow_right (by norm_num) h7
        omega
      have hnotop : ¬ shift + 7 > 63 := by omega
      simp only [hnotop, if_false]
      have hmod : (n % 0x80 + 0x80) % 0x80 = n % 0x80 := by omega
      rw [hmod, lor_shift _ _ _ hacc]
      have h1 : n / 0x80 < 2 ^ (63 - (shift + 7)) := by
        rw [Nat.div_lt_iff_lt_mul (by norm_num)]
        have he : 63 - shift = (63 - (shift + 7)) + 7 := by omega
        rw [he, pow_add] at hn
        calc n < 2 ^ (63 - (shift + 7)) * 2 ^ 7 := hn
          _ = 2 ^ (63 - (shift + 7)) * 0x80 := by norm_num
      have h2 : acc + n % 0x80 * 2 ^ shift < 2 ^ (shift + 7) := by
        have ep : (2 : Nat) ^ (shift + 7) = 2 ^ shift * 128 := by
          rw [pow_add]; norm_num
        have hb2 : n % 0x80 * 2 ^ shift ≤ 127 * 2 ^ shift :=
          Nat.mul_le_mul_right _ (by omega)
        omega
      have hrec := ih (n / 0x80) (by omega) (shift + 7)
        (acc + n % 0x80 * 2 ^ shift) rest h1 (by omega) h2
      rw [hrec]
      have e : (2 : Nat) ^ (shift + 7) = 2 ^ shift * 128 := by
        rw [pow_add]; norm_num
      rw [e]
      have e2 : acc + n % 0x80 * 2 ^ shift + n / 0x80 * (2 ^ shift * 128)
          = acc + (n % 0x80 + 0x80 * (n / 0x80)) * 2 ^ shift := by ring
      rw [e2, Nat.mod_add_div]

theorem readVarint_write (n : Nat) (rest : List Nat) (hn : n < 2 ^ 63) :
    readVarint (writeVarint n ++ rest) = some (n, rest) := by
  have h := readVarintAux_write n 0 0 rest (by simpa using hn) (by omega) (by norm_num)
  simpa [readVarint] using h

theorem writeVarint_ne_nil (n : Nat) : writeVarint n ≠ [] := by
  rw [writeVarint]
  by_cases h : n < 0x80 <;> simp [h]

theorem writeTag_ne_nil (f wt : Nat) : writeTag f wt ≠ [] :=
  writeVarint_ne_nil _

/-! Length bounds for the readers (each read consumes at least one byte). -/

theorem readVarintAux_length : ∀ (l : List Nat) (s a v : Nat) (r : List Nat),
    readVarintAux l s a = some (v, r) → r.length < l.length := by
  intro l
  induction l with
  | nil => intro s a v r h; simp [readVarintAux] at h
  | cons b rest ih =>
    intro s a v r h
    simp only [readVarintAux] at h
    split at h
    · cases h; simp
    · split at h
      · cases h
      · have := ih _ _ _ _ h
        simp only [List.length_cons]
        omega

theorem readVarint_length {l : List Nat} {v : Nat} {r : List Nat}
    (h : readVarint l = some (v, r)) : r.length < l.length :=
  readVarintAux_length l 0 0 v r h

theorem readTag_length {l : List Nat} {f w : Nat} {r : List Nat}
    (h : readTag l = some (f, w, r)) : r.length < l.length := by
  unfold readTag at h
  cases hv : readVarint l with
  | none => rw [hv] at h; cases h
  | some p =>
    obtain ⟨raw, rest⟩ := p
    rw [hv] at h
    cases h
    exact readVarint_length hv

theorem readInt64_length {l : List Nat} {v : Nat} {r : List Nat}
    (h : readInt64 l = some (v, r)) : r.length < l.length := by
  unfold readInt64 at h
  cases hv : readVarint l with
  | none => simp [hv] at h
  | some p =>
    obtain ⟨raw, rest⟩ := p
    simp only [hv] at h
    by_cases hc : MAX_SAFE_INTEGER < raw
    · simp [hc] at h
    · simp only [if_neg hc, Option.some.injEq, Prod.mk.injEq] at h
      obtain ⟨h1, h2⟩ := h
      subst h2
      exact readVarint_length hv

theorem readBytes_length {l : List Nat} {v r : List Nat}
    (h : readBytes l = some (v, r)) : r.length < l.length := by
  unfold readBytes at h
  cases hv : readVarint l with
  | none => simp [hv] at h
  | some p =>
    obtain ⟨len, rest⟩ := p
    simp only [hv] at h
    by_cases hc : rest.length < len
    · simp [hc] at h
    · simp only [if_neg hc, Option.some.injEq, Prod.mk.injEq] at h
      obtain ⟨h1, h2⟩ := h
      subst h2
      have := readVarint_length hv
      simp only [List.length_drop]
      omega

theorem readString_length {l : List Nat} {v r : List Nat}
    (h : readString l = some (v, r)) : r.length < l.length :=
  readBytes_length h

theorem skipField_length {w : Nat} {l r : List Nat}
    (h : skipField w l = some r) : r.length < l.length := by
  unfold skipField at h
  by_cases h0 : w = 0
  · simp only [if_pos h0] at h
    cases hv : readVarint l with
    | none => simp [hv] at h
    | some p =>
      obtain ⟨v, rest⟩ := p
      simp only [hv, Option.some.injEq] at h
      subst h
      exact readVarint_length hv
  · by_cases h2 : w = 2
    · simp only [if_neg h0, if_pos h2] at h
      cases hv : readVarint l with
      | none => simp [hv] at h
      | some p =>
        obtain ⟨len, rest⟩ := p
        simp only [hv] at h
        by_cases hc : rest.length < len
        · simp [hc] at h
        · simp only [if_neg hc, Option.some.injEq] at h
          subst h
          have := readVarint_length hv
          simp only [List.length_drop]
          omega
    · simp [if_neg h0, if_neg h2] at h

/-! The message types of the codec (notes.proto subset). Optional fields are
`Option`; required-semantics fields carry their per-type default when absent
from the byte stream. -/

/-- Message Note. -/
structure Note where
  id : Nat
  title : List Nat
  body : List Nat
  createdAtUnixMs : Nat
  updatedAtUnixMs : Nat
  version : Nat
deriving Repr, DecidableEq

/-- Message CreateNoteRequest. -/
structure CreateNoteRequest where
  title : List Nat
  body : List Nat
deriving Repr, DecidableEq

/-- Message CreateNoteResponse. -/
structure CreateNoteResponse where
  note : Option Note
deriving Repr, DecidableEq

/-- Message GetNoteResponse. -/
structure GetNoteResponse where
  note : Option Note
deriving Repr, DecidableEq

/-- Message ListNotesResponse. -/
structure ListNotesResponse where
  notes : List Note
deriving Repr, DecidableEq

/-- Message UpdateNoteRequest: both fields optional (absent = leave unchanged). -/
structure UpdateNoteRequest where
  title : Option (List Nat)
  body : Option (List Nat)
deriving Repr, DecidableEq

/-- Message UpdateNoteResponse. -/
structure UpdateNoteResponse where
  note : Option Note
deriving Repr, DecidableEq

/-- Message DeleteNoteResponse. -/
structure DeleteNoteResponse where
  id : Nat
deriving Repr, DecidableEq

/-- Message NoteDelta: optional title/body, required id/timestamp/version. -/
structure NoteDelta where
  id : Nat
  title : Option (List Nat)
  body : Option (List Nat)
  updatedAtUnixMs : Nat
  version : Nat
deriving Repr, DecidableEq

/-- Message NoteDeleted. -/
structure NoteDeleted where
  id : Nat
deriving Repr, DecidableEq

/-- The member cases of the NoteEvent tagged union. -/
inductive NoteEventCase
  | created (note : Note)
  | updated (delta : NoteDelta)
  | deleted (deleted : NoteDeleted)
deriving Repr, DecidableEq

/-- Message NoteEvent: at most one member case set; `none` is the empty
event (`event: undefined` in the source). -/
structure NoteEvent where
  event : Option NoteEventCase
deriving Repr, DecidableEq

/-! Encoders. An encoder fails (returns `none`) exactly where the source
throws, namely when numberToVarint rejects an integer field value. -/

/-- Function encodeNote. -/
def encodeNote (m : Note) : Option (List Nat) := do
  let f1 ← writeInt64 1 (.int m.id)
  let f4 ← writeInt64 4 (.int m.createdAtUnixMs)
  let f5 ← writeInt64 5 (.int m.updatedAtUnixMs)
  let f6 ← writeInt64 6 (.int m.version)
  pure (f1 ++ writeString 2 m.title ++ writeString 3 m.body ++ f4 ++ f5 ++ f6)

/-- Function encodeCreateNoteRequest. -/
def encodeCreateNoteRequest (m : CreateNoteRequest) : List Nat :=
  writeString 1 m.title ++ writeString 2 m.body

/-- Function encodeCreateNoteResponse. -/
def encodeCreateNoteResponse (m : CreateNoteResponse) : Option (List Nat) :=
  match m.note with
  | none => some []
  | some n => (encodeNote n).map fun p => writeMessage 1 p

/-- Function encodeGetNoteResponse. -/
def encodeGetNoteResponse (m : GetNoteResponse) : Option (List Nat) :=
  match m.note with
  | none => some []
  | some n => (encodeNote n).map fun p => writeMessage 1 p

/-- Function encodeListNotesResponse: repeated field 1, in list order. -/
def encodeListNotesResponse (m : ListNotesResponse) : Option (List Nat) := do
  let chunks ← m.notes.mapM fun n => (encodeNote n).map fun p => writeMessage 1 p
  pure chunks.flatten

/-- Function encodeUpdateNoteRequest: optional fields omitted when unset. -/
def encodeUpdateNoteRequest (m : UpdateNoteRequest) : List Nat :=
  (match m.title with
   | none => []
   | some t => writeString 1 t) ++
  (match m.body with
   | none => []
   | some b => writeString 2 b)

/-- Function encodeUpdateNoteResponse. -/
def encodeUpdateNoteResponse (m : UpdateNoteResponse) : Option (List Nat) :=
  match m.note with
  | none => some []
  | some n => (encodeNote n).map fun p => writeMessage 1 p

/-- Function encodeDeleteNoteResponse. -/
def encodeDeleteNoteResponse (m : DeleteNoteResponse) : Option (List Nat) :=
  writeInt64 1 (.int m.id)

/-- Function encodeNoteDelta. -/
def encodeNoteDelta (m : NoteDelta) : Option (List Nat) := do
  let f1 ← writeInt64 1 (.int m.id)
  let f4 ← writeInt64 4 (.int m.updatedAtUnixMs)
  let f5 ← writeInt64 5 (.int m.version)
  pure (f1 ++
    (match m.title with
     | none => []
     | some t => writeString 2 t) ++
    (match m.body with
     | none => []
     | some b => writeString 3 b) ++ f4 ++ f5)

/-- Function encodeNoteDeleted. -/
def encodeNoteDeleted (m : NoteDeleted) : Option (List Nat) :=
  writeInt64 1 (.int m.id)

/-- Function encodeNoteEvent: writes the single set member (field 1, 2 or 3),
or nothing for the empty event. -/
def encodeNoteEvent (m : NoteEvent) : Option (List Nat) :=
  match m.event with
  | none => some []
  | some (.created n) => (encodeNote n).map fun p => writeMessage 1 p
  | some (.updated d) => (encodeNoteDelta d).map fun p => writeMessage 2 p
  | some (.deleted d) => (encodeNoteDeleted d).map fun p => writeMessage 3 p

/-! Decoders. Each decoder loops over (tag, payload) pairs until the buffer
is exhausted, dispatching on field number and skipping unknown fields;
any reader error fails the whole decode. -/

/-- The zero-initialized Note that decodeNote starts from. -/
def defaultNote : Note :=
  { id := 0, title := [], body := [], createdAtUnixMs := 0,
    updatedAtUnixMs := 0, version := 0 }

/-- Loop of decodeNote. -/
def decodeNoteAux (bs : List Nat) (m : Note) : Option Note :=
  if bs.isEmpty then some m
  else
    match htag : readTag bs with
    | none => none
    | some (fno, wt, rest) =>
      if fno = 1 then
        match hv : readInt64 rest with
        | none => none
        | some (v, rest') => decodeNoteAux rest' { m with id := v }
      else if fno = 2 then
        match hv : readString rest with
        | none => none
        | some (s, rest') => decodeNoteAux rest' { m with title := s }
      else if fno = 3 then
        match hv : readString rest with
        | none => none
        | some (s, rest') => decodeNoteAux rest' { m with body := s }
      else if fno = 4 then
        match hv : readInt64 rest with
        | none => none
        | some (v, rest') => decodeNoteAux rest' { m with createdAtUnixMs := v }
      else if fno = 5 then
        match hv : readInt64 rest with
        | none => none
        | some (v, rest') => decodeNoteAux rest' { m with updatedAtUnixMs := v }
      else if fno = 6 then
        match hv : readInt64 rest with
        | none => none
        | some (v, rest') => decodeNoteAux rest' { m with version := v }
      else
        match hv : skipField wt rest with
        | none => none
        | some rest' => decodeNoteAux rest' m
termination_by bs.length
decreasing_by
  all_goals
    (have h1 := readTag_length htag
     first
     | have h2 := readInt64_length hv
     | have h2 := readString_length hv
     | have h2 := skipField_length hv
     omega)

/-- Function decodeNote. -/
def decodeNote (bs : List Nat) : Option Note :=
  decodeNoteAux bs defaultNote

/-- Loop of decodeCreateNoteRequest. -/
def decodeCreateNoteRequestAux (bs : List Nat) (m : CreateNoteRequest) :
    Option CreateNoteRequest :=
  if bs.isEmpty then some m
  else
    match htag : readTag bs with
    | none => none
    | some (fno, wt, rest) =>
      if fno = 1 then
        match hv : readString rest with
        | none => none
        | some (s, rest') => decodeCreateNoteRequestAux rest' { m with title := s }
      else if fno = 2 then
        match hv : readString rest with
        | none => none
        | some (s, rest') => decodeCreateNoteRequestAux rest' { m with body := s }
      else
        match hv : skipField wt rest with
        | none => none
        | some rest' => decodeCreateNoteRequestAux rest' m
termination_by bs.length
decreasing_by
  all_goals
    (have h1 := readTag_length htag
     first
     | have h2 := readString_length hv
     | have h2 := skipField_length hv
     omega)

/-- Function decodeCreateNoteRequest. -/
def decodeCreateNoteRequest (bs : List Nat) : Option CreateNoteRequest :=
  decodeCreateNoteRequestAux bs { title := [], body := [] }

/-- Loop of decodeCreateNoteResponse (field 1 is a nested Note). -/
def decodeCreateNoteResponseAux (bs : List Nat) (m : CreateNoteResponse) :
    Option CreateNoteResponse :=
  if bs.isEmpty then some m
  else
    match htag : readTag bs with
    | none => none
    | some (fno, wt, rest) =>
      if fno = 1 then
        match hv : readBytes rest with
        | none => none
        | some (payload, rest') =>
          match decodeNote payload with
          | none => none
          | some n => decodeCreateNoteResponseAux rest' { m with note := some n }
      else
        match hv : skipField wt rest with
        | none => none
        | some rest' => decodeCreateNoteResponseAux rest' m
termination_by bs.length
decreasing_by
  all_goals
    (have h1 := readTag_length htag
     first
     | have h2 := readBytes_length hv
     | have h2 := skipField_length hv
     omega)

/-- Function decodeCreateNoteResponse. -/
def decodeCreateNoteResponse (bs : List Nat) : Option CreateNoteResponse :=
  decodeCreateNoteResponseAux bs { note := none }

/-- Loop of decodeGetNoteResponse (field 1 is a nested Note). -/
def decodeGetNoteResponseAux (bs : List Nat) (m : GetNoteResponse) :
    Option GetNoteResponse :=
  if bs.isEmpty then some m
  else
    match htag : readTag bs with
    | none => none
    | some (fno, wt, rest) =>
      if fno = 1 then
        match hv : readBytes rest with
        | none => none
        | some (payload, rest') =>
          match decodeNote payload with
          | none => none
          | some n => decodeGetNoteResponseAux rest' { m with note := some n }
      else
        match hv : skipField wt rest with
        | none => none
        | some rest' => decodeGetNoteResponseAux rest' m
termination_by bs.length
decreasing_by
  all_goals
    (have h1 := readTag_length htag
     first
     | have h2 := readBytes_length hv
     | have h2 := skipField_length hv
     omega)

/-- Function decodeGetNoteResponse. -/
def decodeGetNoteResponse (bs : List Nat) : Option GetNoteResponse :=
  decodeGetNoteResponseAux bs { note := none }

/-- Loop of decodeListNotesResponse (repeated nested Note under field 1,
accumulated in arrival order). -/
def decodeListNotesResponseAux (bs : List Nat) (m : ListNotesResponse) :
    Option ListNotesResponse :=
  if bs.isEmpty then some m
  else
    match htag : readTag bs with
    | none => none
    | some (fno, wt, rest) =>
      if fno = 1 then
        match hv : readBytes rest with
        | none => none
        | some (payload, rest') =>
          match decodeNote payload with
          | none => none
          | some n => decodeListNotesResponseAux rest' { m with notes := m.notes ++ [n] }
      else
        match hv : skipField wt rest with
        | none => none
        | some rest' => decodeListNotesResponseAux rest' m
termination_by bs.length
decreasing_by
  all_goals
    (have h1 := readTag_length htag
     first
     | have h2 := readBytes_length hv
     | have h2 := skipField_length hv
     omega)

/-- Function decodeListNotesResponse. -/
def decodeListNotesResponse (bs : List Nat) : Option ListNotesResponse :=
  decodeListNotesResponseAux bs { notes := [] }

/-- Loop of decodeUpdateNoteRequest. -/
def decodeUpdateNoteRequestAux (bs : List Nat) (m : UpdateNoteRequest) :
    Option UpdateNoteRequest :=
  if bs.isEmpty then some m
  else
    match htag : readTag bs with
    | none => none
    | some (fno, wt, rest) =>
      if fno = 1 then
        match hv : readString rest with
        | none => none
        | some (s, rest') => decodeUpdateNoteRequestAux rest' { m with title := some s }
      else if fno = 2 then
        match hv : readString rest with
        | none => none
        | some (s, rest') => decodeUpdateNoteRequestAux rest' { m with body := some s }
      else
        match hv : skipField wt rest with
        | none => none
        | some rest' => decodeUpdateNoteRequestAux rest' m
termination_by bs.length
decreasing_by
  all_goals
    (have h1 := readTag_length htag
     first
     | have h2 := readString_length hv
     | have h2 := skipField_length hv
     omega)

/-- Function decodeUpdateNoteRequest. -/
def decodeUpdateNoteRequest (bs : List Nat) : Option UpdateNoteRequest :=
  decodeUpdateNoteRequestAux bs { title := none, body := none }

/-- Loop of decodeUpdateNoteResponse (field 1 is a nested Note). -/
def decodeUpdateNoteResponseAux (bs : List Nat) (m : UpdateNoteResponse) :
    Option UpdateNoteResponse :=
  if bs.isEmpty then some m
  else
    match htag : readTag bs with
    | none => none
    | some (fno, wt, rest) =>
      if fno = 1 then
        match hv : readBytes rest with
        | none => none
        | some (payload, rest') =>
          match decodeNote payload with
          | none => none
          | some n => decodeUpdateNoteResponseAux rest' { m with note := some n }
      else
        match hv : skipField wt rest with
        | none => none
        | some rest' => decodeUpdateNoteResponseAux rest' m
termination_by bs.length
decreasing_by
  all_goals
    (have h1 := readTag_length htag
     first
     | have h2 := readBytes_length hv
     | have h2 := skipField_length hv
     omega)

/-- Function decodeUpdateNoteResponse. -/
def decodeUpdateNoteResponse (bs : List Nat) : Option UpdateNoteResponse :=
  decodeUpdateNoteResponseAux bs { note := none }

/-- Loop of decodeDeleteNoteResponse. -/
def decodeDeleteNoteResponseAux (bs : List Nat) (m : DeleteNoteResponse) :
    Option DeleteNoteResponse :=
  if bs.isEmpty then some m
  else
    match htag : readTag bs with
    | none => none
    | some (fno, wt, rest) =>
      if fno = 1 then
        match hv : readInt64 rest with
        | none => none
        | some (v, rest') => decodeDeleteNoteResponseAux rest' { m with id := v }
      else
        match hv : skipField wt rest with
        | none => none
        | some rest' => decodeDeleteNoteResponseAux rest' m
termination_by bs.length
decreasing_by
  all_goals
    (have h1 := readTag_length htag
     first
     | have h2 := readInt64_length hv
     | have h2 := skipField_length hv
     omega)

/-- Function decodeDeleteNoteResponse. -/
def decodeDeleteNoteResponse (bs : List Nat) : Option DeleteNoteResponse :=
  decodeDeleteNoteResponseAux bs { id := 0 }

/-- The initial NoteDelta of decodeNoteDelta (optional fields unset). -/
def defaultNoteDelta : NoteDelta :=
  { id := 0, title := none, body := none, updatedAtUnixMs := 0, version := 0 }

/-- Loop of decodeNoteDelta. -/
def decodeNoteDeltaAux (bs : List Nat) (m : NoteDelta) : Option NoteDelta :=
  if bs.isEmpty then some m
  else
    match htag : readTag bs with
    | none => none
    | some (fno, wt, rest) =>
      if fno = 1 then
        match hv : readInt64 rest with
        | none => none
        | some (v, rest') => decodeNoteDeltaAux rest' { m with id := v }
      else if fno = 2 then
        match hv : readString rest with
        | none => none
        | some (s, rest') => decodeNoteDeltaAux rest' { m with title := some s }
      else if fno = 3 then
        match hv : readString rest with
        | none => none
        | some (s, rest') => decodeNoteDeltaAux rest' { m with body := some s }
      else if fno = 4 then
        match hv : readInt64 rest with
        | none => none
        | some (v, rest') => decodeNoteDeltaAux rest' { m with updatedAtUnixMs := v }
      else if fno = 5 then
        match hv : readInt64 rest with
        | none => none
        | some (v, rest') => decodeNoteDeltaAux rest' { m with version := v }
      else
        match hv : skipField wt rest with
        | none => none
        | some rest' => decodeNoteDeltaAux rest' m
termination_by bs.length
decreasing_by
  all_goals
    (have h1 := readTag_length htag
     first
     | have h2 := readInt64_length hv
     | have h2 := readString_length hv
     | have h2 := skipField_length hv
     omega)

/-- Function decodeNoteDelta. -/
def decodeNoteDelta (bs : List Nat) : Option NoteDelta :=
  decodeNoteDeltaAux bs defaultNoteDelta

/-- Loop of decodeNoteDeleted. -/
def decodeNoteDeletedAux (bs : List Nat) (m : NoteDeleted) : Option NoteDeleted :=
  if bs.isEmpty then some m
  else
    match htag : readTag bs with
    | none => none
    | some (fno, wt, rest) =>
      if fno = 1 then
        match hv : readInt64 rest with
        | none => none
        | some (v, rest') => decodeNoteDeletedAux rest' { m with id := v }
      else
        match hv : skipField wt rest with
        | none => none
        | some rest' => decodeNoteDeletedAux rest' m
termination_by bs.length
decreasing_by
  all_goals
    (have h1 := readTag_length htag
     first
     | have h2 := readInt64_length hv
     | have h2 := skipField_length hv
     omega)

/-- Function decodeNoteDeleted. -/
def decodeNoteDeleted (bs : List Nat) : Option NoteDeleted :=
  decodeNoteDeletedAux bs { id := 0 }

/-- Loop of decodeNoteEvent: each member field replaces the whole message,
so the member whose field appears last in the buffer wins. -/
def decodeNoteEventAux (bs : List Nat) (m : NoteEvent) : Option NoteEvent :=
  if bs.isEmpty then some m
  else
    match htag : readTag bs with
    | none => none
    | some (fno, wt, rest) =>
      if fno = 1 then
        match hv : readBytes rest with
        | none => none
        | some (payload, rest') =>
          match decodeNote payload with
          | none => none
          | some n => decodeNoteEventAux rest' { event := some (.created n) }
      else if fno = 2 then
        match hv : readBytes rest with
        | none => none
        | some (payload, rest') =>
          match decodeNoteDelta payload with
          | none => none
          | some d => decodeNoteEventAux rest' { event := some (.updated d) }
      else if fno = 3 then
        match hv : readBytes rest with
        | none => none
        | some (payload, rest') =>
          match decodeNoteDeleted payload with
          | none => none
          | some d => decodeNoteEventAux rest' { event := some (.deleted d) }
      else
        match hv : skipField wt rest with
        | none => none
        | some rest' => decodeNoteEventAux rest' m
termination_by bs.length
decreasing_by
  all_goals
    (have h1 := readTag_length htag
     first
     | have h2 := readBytes_length hv
     | have h2 := skipField_length hv
     omega)

/-- Function decodeNoteEvent. -/
def decodeNoteEvent (bs : List Nat) : Option NoteEvent :=
  decodeNoteEventAux bs { event := none }

/-! Round-trip lemmas for the reader primitives. -/

theorem readTag_writeTag (f wt : Nat) (hf : f < 2 ^ 29) (hwt : wt < 8) (rest : List Nat) :
    readTag (writeTag f wt ++ rest) = some (f, wt, rest) := by
  unfold writeTag readTag
  have he : f <<< 3 ||| wt = wt + f * 2 ^ 3 := by
    rw [Nat.shiftLeft_eq, Nat.lor_comm]
    exact lor_lowhigh 3 wt f hwt
  rw [he, readVarint_write _ _ (by nlinarith)]
  show some ((wt + f * 2 ^ 3) % 2 ^ 32 / 8, (wt + f * 2 ^ 3) % 8, rest) = some (f, wt, rest)
  have e1 : (wt + f * 2 ^ 3) % 2 ^ 32 = wt + f * 2 ^ 3 := by
    apply Nat.mod_eq_of_lt
    nlinarith
  rw [e1]
  have e2 : (wt + f * 2 ^ 3) / 8 = f := by omega
  have e3 : (wt + f * 2 ^ 3) % 8 = wt := by omega
  rw [e2, e3]

theorem readInt64_write (v : Nat) (hv : v ≤ MAX_SAFE_INTEGER) (rest : List Nat) :
    readInt64 (writeVarint v ++ rest) = some (v, rest) := by
  unfold readInt64
  have hlt : v < 2 ^ 63 := by
    have : MAX_SAFE_INTEGER < 2 ^ 63 := by norm_num [MAX_SAFE_INTEGER]
    omega
  rw [readVarint_write v rest hlt]
  simp [Nat.not_lt.mpr hv]

theorem readBytes_write (s rest : List Nat) (hs : s.length < 2 ^ 63) :
    readBytes (writeVarint s.length ++ (s ++ rest)) = some (s, rest) := by
  unfold readBytes
  rw [readVarint_write _ _ hs]
  have hn : ¬ (s ++ rest).length < s.length := by
    simp [List.length_append]
  simp [hn, List.take_left, List.drop_left]

theorem readString_write (s rest : List Nat) (hs : s.length < 2 ^ 63) :
    readString (writeVarint s.length ++ (s ++ rest)) = some (s, rest) :=
  readBytes_write s rest hs

theorem skipField_varint (v : Nat) (hv : v < 2 ^ 63) (rest : List Nat) :
    skipField 0 (writeVarint v ++ rest) = some rest := by
  unfold skipField
  rw [if_pos rfl, readVarint_write v rest hv]

theorem skipField_bytes (s rest : List Nat) (hs : s.length < 2 ^ 63) :
    skipField 2 (writeVarint s.length ++ (s ++ rest)) = some rest := by
  unfold skipField
  rw [if_neg (by norm_num), if_pos rfl, readVarint_write _ _ hs]
  have hn : ¬ (s ++ rest).length < s.length := by
    simp [List.length_append]
  simp [hn, List.drop_left]

/-! Unknown-field injections: a field with an unrecognized field number, of
varint or length-delimited wire type, as used to test forward compatibility. -/

/-- An unknown field's wire representation choice: a varint payload
(wire type 0) or a length-delimited payload (wire type 2). -/
inductive UnknownField
  | varintField (v : Nat)
  | lengthDelimitedField (s : List Nat)
deriving Repr, DecidableEq

/-- Wire type of an unknown-field injection. -/
def UnknownField.wireType : UnknownField → Nat
  | .varintField _ => 0
  | .lengthDelimitedField _ => 2

/-- Payload bytes of an unknown-field injection. -/
def UnknownField.payload : UnknownField → List Nat
  | .varintField v => writeVarint v
  | .lengthDelimitedField s => writeVarint s.length ++ s

/-- Well-formedness of an unknown-field payload (values in varint range). -/
def UnknownField.WF : UnknownField → Prop
  | .varintField v => v < 2 ^ 63
  | .lengthDelimitedField s => s.length < 2 ^ 63

theorem UnknownField.wireType_lt (u : UnknownField) : u.wireType < 8 := by
  cases u <;> simp [UnknownField.wireType]

/-- The full byte chunk of an unknown-field injection. -/
def encodeUnknownField (f : Nat) (u : UnknownField) : List Nat :=
  writeTag f u.wireType ++ u.payload

theorem skipField_unknown (u : UnknownField) (hu : u.WF) (rest : List Nat) :
    skipField u.wireType (u.payload ++ rest) = some rest := by
  cases u with
  | varintField v =>
    exact skipField_varint v hu rest
  | lengthDelimitedField s =>
    have h := skipField_bytes s rest hu
    simpa [UnknownField.wireType, UnknownField.payload, List.append_assoc] using h

/-! Step lemmas: how each decoder loop consumes one leading field chunk. -/

theorem decodeNoteAux_field1 (v : Nat) (hv : v ≤ MAX_SAFE_INTEGER) (rest : List Nat) (m : Note) :
    decodeNoteAux (writeTag 1 0 ++ (writeVarint v ++ rest)) m = decodeNoteAux rest { m with id := v } := by
  have hne : (writeTag 1 0 ++ (writeVarint v ++ rest)).isEmpty = false := by
    rw [List.isEmpty_eq_false]
    exact List.append_ne_nil_of_left_ne_nil (writeTag_ne_nil 1 0) _
  have ht := readTag_writeTag 1 0 (by norm_num) (by norm_num) (writeVarint v ++ rest)
  have hi := readInt64_write v hv rest
  rw [decodeNoteAux]
  simp only [hne, Bool.false_eq_true, if_false]
  split
  next heq => rw [ht] at heq; cases heq
  next fno2 wt2 rest2 heq =>
    rw [ht] at heq
    simp only [Option.some.injEq, Prod.mk.injEq] at heq
    obtain ⟨h1, h2, h3⟩ := heq
    subst h1
    subst h2
    subst h3
    rw [if_pos rfl]
    split
    next heq => rw [hi] at heq; cases heq
    next a b heq =>
      rw [hi] at heq
      simp only [Option.some.injEq, Prod.mk.injEq] at heq
      obtain ⟨h1, h2⟩ := heq
      subst h1
      subst h2
      rfl

theorem decodeNoteAux_field2 (s : List Nat) (hs : s.length < 2 ^ 63) (rest : List Nat) (m : Note) :
    decodeNoteAux (writeTag 2 2 ++ (writeVarint s.length ++ (s ++ rest))) m = decodeNoteAux rest { m with title := s } := by
  have hne : (writeTag 2 2 ++ (writeVarint s.length ++ (s ++ rest))).isEmpty = false := by
    rw [List.isEmpty_eq_false]
    exact List.append_ne_nil_of_left_ne_nil (writeTag_ne_nil 2 2) _
  have ht := readTag_writeTag 2 2 (by norm_num) (by norm_num) (writeVarint s.length ++ (s ++ rest))
  have hi := readString_write s rest hs
  rw [decodeNoteAux]
  simp only [hne, Bool.false_eq_true, if_false]
  split
  next heq => rw [ht] at heq; cases heq
  next fno2 wt2 rest2 heq =>
    rw [ht] at heq
    simp only [Option.some.injEq, Prod.mk.injEq] at heq
    obtain ⟨h1, h2, h3⟩ := heq
    subst h1
    subst h2
    subst h3
    rw [if_neg (by norm_num), if_pos rfl]
    split
    next heq => rw [hi] at heq; cases heq
    next a b heq =>
      rw [hi] at heq
      simp only [Option.some.injEq, Prod.mk.injEq] at heq
      obtain ⟨h1, h2⟩ := heq
      subst h1
      subst h2
      rfl

theorem decodeNoteAux_field3 (s : List Nat) (hs : s.length < 2 ^ 63) (rest : List Nat) (m : Note) :
    decodeNoteAux (writeTag 3 2 ++ (writeVarint s.length ++ (s ++ rest))) m = decodeNoteAux rest { m with body := s } := by
  have hne : (writeTag 3 2 ++ (writeVarint s.length ++ (s ++ rest))).isEmpty = false := by
    rw [List.isEmpty_eq_false]
    exact List.append_ne_nil_of_left_ne_nil (writeTag_ne_nil 3 2) _
  have ht := readTag_writeTag 3 2 (by norm_num) (by norm_num) (writeVarint s.length ++ (s ++ rest))
  have hi := readString_write s rest hs
  rw [decodeNoteAux]
  simp only [hne, Bool.false_eq_true, if_false]
  split
  next heq => rw [ht] at heq; cases heq
  next fno2 wt2 rest2 heq =>
    rw [ht] at heq
    simp only [Option.some.injEq, Prod.mk.injEq] at heq
    obtain ⟨h1, h2, h3⟩ := heq
    subst h1
    subst h2
    subst h3
    rw [if_neg (by norm_num), if_neg (by norm_num), if_pos rfl]
    split
    next heq => rw [hi] at heq; cases heq
    next a b heq =>
      rw [hi] at heq
      simp only [Option.some.injEq, Prod.mk.injEq] at heq
      obtain ⟨h1, h2⟩ := heq
      subst h1
      subst h2
      rfl

theorem decodeNoteAux_field4 (v : Nat) (hv : v ≤ MAX_SAFE_INTEGER) (rest : List Nat) (m : Note) :
    decodeNoteAux (writeTag 4 0 ++ (writeVarint v ++ rest)) m = decodeNoteAux rest { m with createdAtUnixMs := v } := by
  have hne : (writeTag 4 0 ++ (writeVarint v ++ rest)).isEmpty = false := by
    rw [List.isEmpty_eq_false]
    exact List.append_ne_nil_of_left_ne_nil (writeTag_ne_nil 4 0) _
  have ht := readTag_writeTag 4 0 (by norm_num) (by norm_num) (writeVarint v ++ rest)
  have hi := readInt64_write v hv rest
  rw [decodeNoteAux]
  simp only [hne, Bool.false_eq_true, if_false]
  split
  next heq => rw [ht] at heq; cases heq
  next fno2 wt2 rest2 heq =>
    rw [ht] at heq
    simp only [Option.some.injEq, Prod.mk.injEq] at heq
    obtain ⟨h1, h2, h3⟩ := heq
    subst h1
    subst h2
    subst h3
    rw [if_neg (by norm_num), if_neg (by norm_num), if_neg (by norm_num), if_pos rfl]
    split
    next heq => rw [hi] at heq; cases heq
    next a b heq =>
      rw [hi] at heq
      simp only [Option.some.injEq, Prod.mk.injEq] at heq
      obtain ⟨h1, h2⟩ := heq
      subst h1
      subst h2
      rfl

theorem decodeNoteAux_field5 (v : Nat) (hv : v ≤ MAX_SAFE_INTEGER) (rest : List Nat) (m : Note) :
    decodeNoteAux (writeTag 5 0 ++ (writeVarint v ++ rest)) m = decodeNoteAux rest { m with updatedAtUnixMs := v } := by
  have hne : (writeTag 5 0 ++ (writeVarint v ++ rest)).isEmpty = false := by
    rw [List.isEmpty_eq_false]
    exact List.append_ne_nil_of_left_ne_nil (writeTag_ne_nil 5 0) _
  have ht := readTag_writeTag 5 0 (by norm_num) (by norm_num) (writeVarint v ++ rest)
  have hi := readInt64_write v hv rest
  rw [decodeNoteAux]
  simp only [hne, Bool.false_eq_true, if_false]
  split
  next heq => rw [ht] at heq; cases heq
  next fno2 wt2 rest2 heq =>
    rw [ht] at heq
    simp only [Option.some.injEq, Prod.mk.injEq] at heq
    obtain ⟨h1, h2, h3⟩ := heq
    subst h1
    subst h2
    subst h3
    rw [if_neg (by norm_num), if_neg (by norm_num), if_neg (by norm_num), if_neg (by norm_num), if_pos rfl]
    split
    next heq => rw [hi] at heq; cases heq
    next a b heq =>
      rw [hi] at heq
      simp only [Option.some.injEq, Prod.mk.injEq] at heq
      obtain ⟨h1, h2⟩ := heq
      subst h1
      subst h2
      rfl

theorem decodeNoteAux_field6 (v : Nat) (hv : v ≤ MAX_SAFE_INTEGER) (rest : List Nat) (m : Note) :
    decodeNoteAux (writeTag 6 0 ++ (writeVarint v ++ rest)) m = decodeNoteAux rest { m with version := v } := by
  have hne : (writeTag 6 0 ++ (writeVarint v ++ rest)).isEmpty = false := by
    rw [List.isEmpty_eq_false]
    exact List.append_ne_nil_of_left_ne_nil (writeTag_ne_nil 6 0) _
  have ht := readTag_writeTag 6 0 (by norm_num) (by norm_num) (writeVarint v ++ rest)
  have hi := readInt64_write v hv rest
  rw [decodeNoteAux]
  simp only [hne, Bool.false_eq_true, if_false]
  split
  next heq => rw [ht] at heq; cases heq
  next fno2 wt2 rest2 heq =>
    rw [ht] at heq
    simp only [Option.some.injEq, Prod.mk.injEq] at heq
    obtain ⟨h1, h2, h3⟩ := heq
    subst h1
    subst h2
    subst h3
    rw [if_neg (by norm_num), if_neg (by norm_num), if_neg (by norm_num), if_neg (by norm_num), if_neg (by norm_num), if_pos rfl]
    split
    next heq => rw [hi] at heq; cases heq
    next a b heq =>
      rw [hi] at heq
      simp only [Option.some.injEq, Prod.mk.injEq] at heq
      obtain ⟨h1, h2⟩ := heq
      subst h1
      subst h2
      rfl

theorem decodeNoteAux_junk (f : Nat) (hf : f < 2 ^ 29) (u : UnknownField)
    (hu : u.WF) (hn1 : f ≠ 1) (hn2 : f ≠ 2) (hn3 : f ≠ 3) (hn4 : f ≠ 4) (hn5 : f ≠ 5) (hn6 : f ≠ 6)
    (rest : List Nat) (m : Note) :
    decodeNoteAux (writeTag f u.wireType ++ (u.payload ++ rest)) m = decodeNoteAux rest m := by
  have hne : (writeTag f u.wireType ++ (u.payload ++ rest)).isEmpty = false := by
    rw [List.isEmpty_eq_false]
    exact List.append_ne_nil_of_left_ne_nil (writeTag_ne_nil f u.wireType) _
  have ht := readTag_writeTag f u.wireType hf u.wireType_lt (u.payload ++ rest)
  have hsk := skipField_unknown u hu rest
  rw [decodeNoteAux]
  simp only [hne, Bool.false_eq_true, if_false]
  split
  next heq => rw [ht] at heq; cases heq
  next fno2 wt2 rest2 heq =>
    rw [ht] at heq
    simp only [Option.some.injEq, Prod.mk.injEq] at heq
    obtain ⟨h1, h2, h3⟩ := heq
    subst h1
    subst h2
    subst h3
    rw [if_neg hn1, if_neg hn2, if_neg hn3, if_neg hn4, if_neg hn5, if_neg hn6]
    split
    next heq => rw [hsk] at heq; cases heq
    next r2 heq =>
      rw [hsk] at heq
      simp only [Option.some.injEq] at heq
      subst heq
      rfl

theorem decodeNoteAux_nil (m : Note) : decodeNoteAux [] m = some m := by
  rw [decodeNoteAux]
  rfl

theorem decodeCreateNoteRequestAux_field1 (s : List Nat) (hs : s.length < 2 ^ 63) (rest : List Nat) (m : CreateNoteRequest) :
    decodeCreateNoteRequestAux (writeTag 1 2 ++ (writeVarint s.length ++ (s ++ rest))) m = decodeCreateNoteRequestAux rest { m with title := s } := by
  have hne : (writeTag 1 2 ++ (writeVarint s.length ++ (s ++ rest))).isEmpty = false := by
    rw [List.isEmpty_eq_false]
    exact List.append_ne_nil_of_left_ne_nil (writeTag_ne_nil 1 2) _
  have ht := readTag_writeTag 1 2 (by norm_num) (by norm_num) (writeVarint s.length ++ (s ++ rest))
  have hi := readString_write s rest hs
  rw [decodeCreateNoteRequestAux]
  simp only [hne, Bool.false_eq_true, if_false]
  split
  next heq => rw [ht] at heq; cases heq
  next fno2 wt2 rest2 heq =>
    rw [ht] at heq
    simp only [Option.some.injEq, Prod.mk.injEq] at heq
    obtain ⟨h1, h2, h3⟩ := heq
    subst h1
    subst h2
    subst h3
    rw [if_pos rfl]
    split
    next heq => rw [hi] at heq; cases heq
    next a b heq =>
      rw [hi] at heq
      simp only [Option.some.injEq, Prod.mk.injEq] at heq
      obtain ⟨h1, h2⟩ := heq
      subst h1
      subst h2
      rfl

theorem decodeCreateNoteRequestAux_field2 (s : List Nat) (hs : s.length < 2 ^ 63) (rest : List Nat) (m : CreateNoteRequest) :
    decodeCreateNoteRequestAux (writeTag 2 2 ++ (writeVarint s.length ++ (s ++ rest))) m = decodeCreateNoteRequestAux rest { m with body := s } := by
  have hne : (writeTag 2 2 ++ (writeVarint s.length ++ (s ++ rest))).isEmpty = false := by
    rw [List.isEmpty_eq_false]
    exact List.append_ne_nil_of_left_ne_nil (writeTag_ne_nil 2 2) _
  have ht := readTag_writeTag 2 2 (by norm_num) (by norm_num) (writeVarint s.length ++ (s ++ rest))
  have hi := readString_write s rest hs
  rw [decodeCreateNoteRequestAux]
  simp only [hne, Bool.false_eq_true, if_false]
  split
  next heq => rw [ht] at heq; cases heq
  next fno2 wt2 rest2 heq =>
    rw [ht] at heq
    simp only [Option.some.injEq, Prod.mk.injEq] at heq
    obtain ⟨h1, h2, h3⟩ := heq
    subst h1
    subst h2
    subst h3
    rw [if_neg (by norm_num), if_pos rfl]
    split
    next heq => rw [hi] at heq; cases heq
    next a b heq =>
      rw [hi] at heq
      simp only [Option.some.injEq, Prod.mk.injEq] at heq
      obtain ⟨h1, h2⟩ := heq
      subst h1
      subst h2
      rfl

theorem decodeCreateNoteRequestAux_junk (f : Nat) (hf : f < 2 ^ 29) (u : UnknownField)
    (hu : u.WF) (hn1 : f ≠ 1) (hn2 : f ≠ 2)
    (rest : List Nat) (m : CreateNoteRequest) :
    decodeCreateNoteRequestAux (writeTag f u.wireType ++ (u.payload ++ rest)) m = decodeCreateNoteRequestAux rest m := by
  have hne : (writeTag f u.wireType ++ (u.payload ++ rest)).isEmpty = false := by
    rw [List.isEmpty_eq_false]
    exact List.append_ne_nil_of_left_ne_nil (writeTag_ne_nil f u.wireType) _
  have ht := readTag_writeTag f u.wireType hf u.wireType_lt (u.payload ++ rest)
  have hsk := skipField_unknown u hu rest
  rw [decodeCreateNoteRequestAux]
  simp only [hne, Bool.false_eq_true, if_false]
  split
  next heq => rw [ht] at heq; cases heq
  next fno2 wt2 rest2 heq =>
    rw [ht] at heq
    simp only [Option.some.injEq, Prod.mk.injEq] at heq
    obtain ⟨h1, h2, h3⟩ := heq
    subst h1
    subst h2
    subst h3
    rw [if_neg hn1, if_neg hn2]
    split
    next heq => rw [hsk] at heq; cases heq
    next r2 heq =>
      rw [hsk] at heq
      simp only [Option.some.injEq] at heq
      subst heq
      rfl

theorem decodeCreateNoteRequestAux_nil (m : CreateNoteRequest) : decodeCreateNoteRequestAux [] m = some m := by
  rw [decodeCreateNoteRequestAux]
  rfl

theorem decodeCreateNoteResponseAux_field1 (p : List Nat) (hp : p.length < 2 ^ 63) (n : Note) (hd : decodeNote p = some n) (rest : List Nat) (m : CreateNoteResponse) :
    decodeCreateNoteResponseAux (writeTag 1 2 ++ (writeVarint p.length ++ (p ++ rest))) m = decodeCreateNoteResponseAux rest { m with note := some n } := by
  have hne : (writeTag 1 2 ++ (writeVarint p.length ++ (p ++ rest))).isEmpty = false := by
    rw [List.isEmpty_eq_false]
    exact List.append_ne_nil_of_left_ne_nil (writeTag_ne_nil 1 2) _
  have ht := readTag_writeTag 1 2 (by norm_num) (by norm_num) (writeVarint p.length ++ (p ++ rest))
  have hi := readBytes_write p rest hp
  rw [decodeCreateNoteResponseAux]
  simp only [hne, Bool.false_eq_true, if_false]
  split
  next heq => rw [ht] at heq; cases heq
  next fno2 wt2 rest2 heq =>
    rw [ht] at heq
    simp only [Option.some.injEq, Prod.mk.injEq] at heq
    obtain ⟨h1, h2, h3⟩ := heq
    subst h1
    subst h2
    subst h3
    rw [if_pos rfl]
    split
    next heq => rw [hi] at heq; cases heq
    next a b heq =>
      rw [hi] at heq
      simp only [Option.some.injEq, Prod.mk.injEq] at heq
      obtain ⟨h1, h2⟩ := heq
      subst h1
      subst h2
      rw [hd]

theorem decodeCreateNoteResponseAux_junk (f : Nat) (hf : f < 2 ^ 29) (u : UnknownField)
    (hu : u.WF) (hn1 : f ≠ 1)
    (rest : List Nat) (m : CreateNoteResponse) :
    decodeCreateNoteResponseAux (writeTag f u.wireType ++ (u.payload ++ rest)) m = decodeCreateNoteResponseAux rest m := by
  have hne : (writeTag f u.wireType ++ (u.payload ++ rest)).isEmpty = false := by
    rw [List.isEmpty_eq_false]
    exact List.append_ne_nil_of_left_ne_nil (writeTag_ne_nil f u.wireType) _
  have ht := readTag_writeTag f u.wireType hf u.wireType_lt (u.payload ++ rest)
  have hsk := skipField_unknown u hu rest
  rw [decodeCreateNoteResponseAux]
  simp only [hne, Bool.false_eq_true, if_false]
  split
  next heq => rw [ht] at heq; cases heq
  next fno2 wt2 rest2 heq =>
    rw [ht] at heq
    simp only [Option.some.injEq, Prod.mk.injEq] at heq
    obtain ⟨h1, h2, h3⟩ := heq
    subst h1
    subst h2
    subst h3
    rw [if_neg hn1]
    split
    next heq => rw [hsk] at heq; cases heq
    next r2 heq =>
      rw [hsk] at heq
      simp only [Option.some.injEq] at heq
      subst heq
      rfl

theorem decodeCreateNoteResponseAux_nil (m : CreateNoteResponse) : decodeCreateNoteResponseAux [] m = some m := by
  rw [decodeCreateNoteResponseAux]
  rfl

theorem decodeGetNoteResponseAux_field1 (p : List Nat) (hp : p.length < 2 ^ 63) (n : Note) (hd : decodeNote p = some n) (rest : List Nat) (m : GetNoteResponse) :
    decodeGetNoteResponseAux (writeTag 1 2 ++ (writeVarint p.length ++ (p ++ rest))) m = decodeGetNoteResponseAux rest { m with note := some n } := by
  have hne : (writeTag 1 2 ++ (writeVarint p.length ++ (p ++ rest))).isEmpty = false := by
    rw [List.isEmpty_eq_false]
    exact List.append_ne_nil_of_left_ne_nil (writeTag_ne_nil 1 2) _
  have ht := readTag_writeTag 1 2 (by norm_num) (by norm_num) (writeVarint p.length ++ (p ++ rest))
  have hi := readBytes_write p rest hp
  rw [decodeGetNoteResponseAux]
  simp only [hne, Bool.false_eq_true, if_false]
  split
  next heq => rw [ht] at heq; cases heq
  next fno2 wt2 rest2 heq =>
    rw [ht] at heq
    simp only [Option.some.injEq, Prod.mk.injEq] at heq
    obtain ⟨h1, h2, h3⟩ := heq
    subst h1
    subst h2
    subst h3
    rw [if_pos rfl]
    split
    next heq => rw [hi] at heq; cases heq
    next a b heq =>
      rw [hi] at heq
      simp only [Option.some.injEq, Prod.mk.injEq] at heq
      obtain ⟨h1, h2⟩ := heq
      subst h1
      subst h2
      rw [hd]

theorem decodeGetNoteResponseAux_junk (f : Nat) (hf : f < 2 ^ 29) (u : UnknownField)
    (hu : u.WF) (hn1 : f ≠ 1)
    (rest : List Nat) (m : GetNoteResponse) :
    decodeGetNoteResponseAux (writeTag f u.wireType ++ (u.payload ++ rest)) m = decodeGetNoteResponseAux rest m := by
  have hne : (writeTag f u.wireType ++ (u.payload ++ rest)).isEmpty = false := by
    rw [List.isEmpty_eq_false]
    exact List.append_ne_nil_of_left_ne_nil (writeTag_ne_nil f u.wireType) _
  have ht := readTag_writeTag f u.wireType hf u.wireType_lt (u.payload ++ rest)
  have hsk := skipField_unknown u hu rest
  rw [decodeGetNoteResponseAux]
  simp only [hne, Bool.false_eq_true, if_false]
  split
  next heq => rw [ht] at heq; cases heq
  next fno2 wt2 rest2 heq =>
    rw [ht] at heq
    simp only [Option.some.injEq, Prod.mk.injEq] at heq
    obtain ⟨h1, h2, h3⟩ := heq
    subst h1
    subst h2
    subst h3
    rw [if_neg hn1]
    split
    next heq => rw [hsk] at heq; cases heq
    next r2 heq =>
      rw [hsk] at heq
      simp only [Option.some.injEq] at heq
      subst heq
      rfl

theorem decodeGetNoteResponseAux_nil (m : GetNoteResponse) : decodeGetNoteResponseAux [] m = some m := by
  rw [decodeGetNoteResponseAux]
  rfl

theorem decodeListNotesResponseAux_field1 (p : List Nat) (hp : p.length < 2 ^ 63) (n : Note) (hd : decodeNote p = some n) (rest : List Nat) (m : ListNotesResponse) :
    decodeListNotesResponseAux (writeTag 1 2 ++ (writeVarint p.length ++ (p ++ rest))) m = decodeListNotesResponseAux rest { m with notes := m.notes ++ [n] } := by
  have hne : (writeTag 1 2 ++ (writeVarint p.length ++ (p ++ rest))).isEmpty = false := by
    rw [List.isEmpty_eq_false]
    exact List.append_ne_nil_of_left_ne_nil (writeTag_ne_nil 1 2) _
  have ht := readTag_writeTag 1 2 (by norm_num) (by norm_num) (writeVarint p.length ++ (p ++ rest))
  have hi := readBytes_write p rest hp
  rw [decodeListNotesResponseAux]
  simp only [hne, Bool.false_eq_true, if_false]
  split
  next heq => rw [ht] at heq; cases heq
  next fno2 wt2 rest2 heq =>
    rw [ht] at heq
    simp only [Option.some.injEq, Prod.mk.injEq] at heq
    obtain ⟨h1, h2, h3⟩ := heq
    subst h1
    subst h2
    subst h3
    rw [if_pos rfl]
    split
    next heq => rw [hi] at heq; cases heq
    next a b heq =>
      rw [hi] at heq
      simp only [Option.some.injEq, Prod.mk.injEq] at heq
      obtain ⟨h1, h2⟩ := heq
      subst h1
      subst h2
      rw [hd]

theorem decodeListNotesResponseAux_junk (f : Nat) (hf : f < 2 ^ 29) (u : UnknownField)
    (hu : u.WF) (hn1 : f ≠ 1)
    (rest : List Nat) (m : ListNotesResponse) :
    decodeListNotesResponseAux (writeTag f u.wireType ++ (u.payload ++ rest)) m = decodeListNotesResponseAux rest m := by
  have hne : (writeTag f u.wireType ++ (u.payload ++ rest)).isEmpty = false := by
    rw [List.isEmpty_eq_false]
    exact List.append_ne_nil_of_left_ne_nil (writeTag_ne_nil f u.wireType) _
  have ht := readTag_writeTag f u.wireType hf u.wireType_lt (u.payload ++ rest)
  have hsk := skipField_unknown u hu rest
  rw [decodeListNotesResponseAux]
  simp only [hne, Bool.false_eq_true, if_false]
  split
  next heq => rw [ht] at heq; cases heq
  next fno2 wt2 rest2 heq =>
    rw [ht] at heq
    simp only [Option.some.injEq, Prod.mk.injEq] at heq
    obtain ⟨h1, h2, h3⟩ := heq
    subst h1
    subst h2
    subst h3
    rw [if_neg hn1]
    split
    next heq => rw [hsk] at heq; cases heq
    next r2 heq =>
      rw [hsk] at heq
      simp only [Option.some.injEq] at heq
      subst heq
      rfl

theorem decodeListNotesResponseAux_nil (m : ListNotesResponse) : decodeListNotesResponseAux [] m = some m := by
  rw [decodeListNotesResponseAux]
  rfl

theorem decodeUpdateNoteRequestAux_field1 (s : List Nat) (hs : s.length < 2 ^ 63) (rest : List Nat) (m : UpdateNoteRequest) :
    decodeUpdateNoteRequestAux (writeTag 1 2 ++ (writeVarint s.length ++ (s ++ rest))) m = decodeUpdateNoteRequestAux rest { m with title := some s } := by
  have hne : (writeTag 1 2 ++ (writeVarint s.length ++ (s ++ rest))).isEmpty = false := by
    rw [List.isEmpty_eq_false]
    exact List.append_ne_nil_of_left_ne_nil (writeTag_ne_nil 1 2) _
  have ht := readTag_writeTag 1 2 (by norm_num) (by norm_num) (writeVarint s.length ++ (s ++ rest))
  have hi := readString_write s rest hs
  rw [decodeUpdateNoteRequestAux]
  simp only [hne, Bool.false_eq_true, if_false]
  split
  next heq => rw [ht] at heq; cases heq
  next fno2 wt2 rest2 heq =>
    rw [ht] at heq
    simp only [Option.some.injEq, Prod.mk.injEq] at heq
    obtain ⟨h1, h2, h3⟩ := heq
    subst h1
    subst h2
    subst h3
    rw [if_pos rfl]
    split
    next heq => rw [hi] at heq; cases heq
    next a b heq =>
      rw [hi] at heq
      simp only [Option.some.injEq, Prod.mk.injEq] at heq
      obtain ⟨h1, h2⟩ := heq
      subst h1
      subst h2
      rfl

theorem decodeUpdateNoteRequestAux_field2 (s : List Nat) (hs : s.length < 2 ^ 63) (rest : List Nat) (m : UpdateNoteRequest) :
    decodeUpdateNoteRequestAux (writeTag 2 2 ++ (writeVarint s.length ++ (s ++ rest))) m = decodeUpdateNoteRequestAux rest { m with body := some s } := by
  have hne : (writeTag 2 2 ++ (writeVarint s.length ++ (s ++ rest))).isEmpty = false := by
    rw [List.isEmpty_eq_false]
    exact List.append_ne_nil_of_left_ne_nil (writeTag_ne_nil 2 2) _
  have ht := readTag_writeTag 2 2 (by norm_num) (by norm_num) (writeVarint s.length ++ (s ++ rest))
  have hi := readString_write s rest hs
  rw [decodeUpdateNoteRequestAux]
  simp only [hne, Bool.false_eq_true, if_false]
  split
  next heq => rw [ht] at heq; cases heq
  next fno2 wt2 rest2 heq =>
    rw [ht] at heq
    simp only [Option.some.injEq, Prod.mk.injEq] at heq
    obtain ⟨h1, h2, h3⟩ := heq
    subst h1
    subst h2
    subst h3
    rw [if_neg (by norm_num), if_pos rfl]
    split
    next heq => rw [hi] at heq; cases heq
    next a b heq =>
      rw [hi] at heq
      simp only [Option.some.injEq, Prod.mk.injEq] at heq
      obtain ⟨h1, h2⟩ := heq
      subst h1
      subst h2
      rfl

theorem decodeUpdateNoteRequestAux_junk (f : Nat) (hf : f < 2 ^ 29) (u : UnknownField)
    (hu : u.WF) (hn1 : f ≠ 1) (hn2 : f ≠ 2)
    (rest : List Nat) (m : UpdateNoteRequest) :
    decodeUpdateNoteRequestAux (writeTag f u.wireType ++ (u.payload ++ rest)) m = decodeUpdateNoteRequestAux rest m := by
  have hne : (writeTag f u.wireType ++ (u.payload ++ rest)).isEmpty = false := by
    rw [List.isEmpty_eq_false]
    exact List.append_ne_nil_of_left_ne_nil (writeTag_ne_nil f u.wireType) _
  have ht := readTag_writeTag f u.wireType hf u.wireType_lt (u.payload ++ rest)
  have hsk := skipField_unknown u hu rest
  rw [decodeUpdateNoteRequestAux]
  simp only [hne, Bool.false_eq_true, if_false]
  split
  next heq => rw [ht] at heq; cases heq
  next fno2 wt2 rest2 heq =>
    rw [ht] at heq
    simp only [Option.some.injEq, Prod.mk.injEq] at heq
    obtain ⟨h1, h2, h3⟩ := heq
    subst h1
    subst h2
    subst h3
    rw [if_neg hn1, if_neg hn2]
    split
    next heq => rw [hsk] at heq; cases heq
    next r2 heq =>
      rw [hsk] at heq
      simp only [Option.some.injEq] at heq
      subst heq
      rfl

theorem decodeUpdateNoteRequestAux_nil (m : UpdateNoteRequest) : decodeUpdateNoteRequestAux [] m = some m := by
  rw [decodeUpdateNoteRequestAux]
  rfl

theorem decodeUpdateNoteResponseAux_field1 (p : List Nat) (hp : p.length < 2 ^ 63) (n : Note) (hd : decodeNote p = some n) (rest : List Nat) (m : UpdateNoteResponse) :
    decodeUpdateNoteResponseAux (writeTag 1 2 ++ (writeVarint p.length ++ (p ++ rest))) m = decodeUpdateNoteResponseAux rest { m with note := some n } := by
  have hne : (writeTag 1 2 ++ (writeVarint p.length ++ (p ++ rest))).isEmpty = false := by
    rw [List.isEmpty_eq_false]
    exact List.append_ne_nil_of_left_ne_nil (writeTag_ne_nil 1 2) _
  have ht := readTag_writeTag 1 2 (by norm_num) (by norm_num) (writeVarint p.length ++ (p ++ rest))
  have hi := readBytes_write p rest hp
  rw [decodeUpdateNoteResponseAux]
  simp only [hne, Bool.false_eq_true, if_false]
  split
  next heq => rw [ht] at heq; cases heq
  next fno2 wt2 rest2 heq =>
    rw [ht] at heq
    simp only [Option.some.injEq, Prod.mk.injEq] at heq
    obtain ⟨h1, h2, h3⟩ := heq
    subst h1
    subst h2
    subst h3
    rw [if_pos rfl]
    split
    next heq => rw [hi] at heq; cases heq
    next a b heq =>
      rw [hi] at heq
      simp only [Option.some.injEq, Prod.mk.injEq] at heq
      obtain ⟨h1, h2⟩ := heq
      subst h1
      subst h2
      rw [hd]

theorem decodeUpdateNoteResponseAux_junk (f : Nat) (hf : f < 2 ^ 29) (u : UnknownField)
    (hu : u.WF) (hn1 : f ≠ 1)
    (rest : List Nat) (m : UpdateNoteResponse) :
    decodeUpdateNoteResponseAux (writeTag f u.wireType ++ (u.payload ++ rest)) m = decodeUpdateNoteResponseAux rest m := by
  have hne : (writeTag f u.wireType ++ (u.payload ++ rest)).isEmpty = false := by
    rw [List.isEmpty_eq_false]
    exact List.append_ne_nil_of_left_ne_nil (writeTag_ne_nil f u.wireType) _
  have ht := readTag_writeTag f u.wireType hf u.wireType_lt (u.payload ++ rest)
  have hsk := skipField_unknown u hu rest
  rw [decodeUpdateNoteResponseAux]
  simp only [hne, Bool.false_eq_true, if_false]
  split
  next heq => rw [ht] at heq; cases heq
  next fno2 wt2 rest2 heq =>
    rw [ht] at heq
    simp only [Option.some.injEq, Prod.mk.injEq] at heq
    obtain ⟨h1, h2, h3⟩ := heq
    subst h1
    subst h2
    subst h3
    rw [if_neg hn1]
    split
    next heq => rw [hsk] at heq; cases heq
    next r2 heq =>
      rw [hsk] at heq
      simp only [Option.some.injEq] at heq
      subst heq
      rfl

theorem decodeUpdateNoteResponseAux_nil (m : UpdateNoteResponse) : decodeUpdateNoteResponseAux [] m = some m := by
  rw [decodeUpdateNoteResponseAux]
  rfl

theorem decodeDeleteNoteResponseAux_field1 (v : Nat) (hv : v ≤ MAX_SAFE_INTEGER) (rest : List Nat) (m : DeleteNoteResponse) :
    decodeDeleteNoteResponseAux (writeTag 1 0 ++ (writeVarint v ++ rest)) m = decodeDeleteNoteResponseAux rest { m with id := v } := by
  have hne : (writeTag 1 0 ++ (writeVarint v ++ rest)).isEmpty = false := by
    rw [List.isEmpty_eq_false]
    exact List.append_ne_nil_of_left_ne_nil (writeTag_ne_nil 1 0) _
  have ht := readTag_writeTag 1 0 (by norm_num) (by norm_num) (writeVarint v ++ rest)
  have hi := readInt64_write v hv rest
  rw [decodeDeleteNoteResponseAux]
  simp only [hne, Bool.false_eq_true, if_false]
  split
  next heq => rw [ht] at heq; cases heq
  next fno2 wt2 rest2 heq =>
    rw [ht] at heq
    simp only [Option.some.injEq, Prod.mk.injEq] at heq
    obtain ⟨h1, h2, h3⟩ := heq
    subst h1
    subst h2
    subst h3
    rw [if_pos rfl]
    split
    next heq => rw [hi] at heq; cases heq
    next a b heq =>
      rw [hi] at heq
      simp only [Option.some.injEq, Prod.mk.injEq] at heq
      obtain ⟨h1, h2⟩ := heq
      subst h1
      subst h2
      rfl

theorem decodeDeleteNoteResponseAux_junk (f : Nat) (hf : f < 2 ^ 29) (u : UnknownField)
    (hu : u.WF) (hn1 : f ≠ 1)
    (rest : List Nat) (m : DeleteNoteResponse) :
    decodeDeleteNoteResponseAux (writeTag f u.wireType ++ (u.payload ++ rest)) m = decodeDeleteNoteResponseAux rest m := by
  have hne : (writeTag f u.wireType ++ (u.payload ++ rest)).isEmpty = false := by
    rw [List.isEmpty_eq_false]
    exact List.append_ne_nil_of_left_ne_nil (writeTag_ne_nil f u.wireType) _
  have ht := readTag_writeTag f u.wireType hf u.wireType_lt (u.payload ++ rest)
  have hsk := skipField_unknown u hu rest
  rw [decodeDeleteNoteResponseAux]
  simp only [hne, Bool.false_eq_true, if_false]
  split
  next heq => rw [ht] at heq; cases heq
  next fno2 wt2 rest2 heq =>
    rw [ht] at heq
    simp only [Option.some.injEq, Prod.mk.injEq] at heq
    obtain ⟨h1, h2, h3⟩ := heq
    subst h1
    subst h2
    subst h3
    rw [if_neg hn1]
    split
    next heq => rw [hsk] at heq; cases heq
    next r2 heq =>
      rw [hsk] at heq
      simp only [Option.some.injEq] at heq
      subst heq
      rfl

theorem decodeDeleteNoteResponseAux_nil (m : DeleteNoteResponse) : decodeDeleteNoteResponseAux [] m = some m := by
  rw [decodeDeleteNoteResponseAux]
  rfl

theorem decodeNoteDeltaAux_field1 (v : Nat) (hv : v ≤ MAX_SAFE_INTEGER) (rest : List Nat) (m : NoteDelta) :
    decodeNoteDeltaAux (writeTag 1 0 ++ (writeVarint v ++ rest)) m = decodeNoteDeltaAux rest { m with id := v } := by
  have hne : (writeTag 1 0 ++ (writeVarint v ++ rest)).isEmpty = false := by
    rw [List.isEmpty_eq_false]
    exact List.append_ne_nil_of_left_ne_nil (writeTag_ne_nil 1 0) _
  have ht := readTag_writeTag 1 0 (by norm_num) (by norm_num) (writeVarint v ++ rest)
  have hi := readInt64_write v hv rest
  rw [decodeNoteDeltaAux]
  simp only [hne, Bool.false_eq_true, if_false]
  split
  next heq => rw [ht] at heq; cases heq
  next fno2 wt2 rest2 heq =>
    rw [ht] at heq
    simp only [Option.some.injEq, Prod.mk.injEq] at heq
    obtain ⟨h1, h2, h3⟩ := heq
    subst h1
    subst h2
    subst h3
    rw [if_pos rfl]
    split
    next heq => rw [hi] at heq; cases heq
    next a b heq =>
      rw [hi] at heq
      simp only [Option.some.injEq, Prod.mk.injEq] at heq
      obtain ⟨h1, h2⟩ := heq
      subst h1
      subst h2
      rfl

theorem decodeNoteDeltaAux_field2 (s : List Nat) (hs : s.length < 2 ^ 63) (rest : List Nat) (m : NoteDelta) :
    decodeNoteDeltaAux (writeTag 2 2 ++ (writeVarint s.length ++ (s ++ rest))) m = decodeNoteDeltaAux rest { m with title := some s } := by
  have hne : (writeTag 2 2 ++ (writeVarint s.length ++ (s ++ rest))).isEmpty = false := by
    rw [List.isEmpty_eq_false]
    exact List.append_ne_nil_of_left_ne_nil (writeTag_ne_nil 2 2) _
  have ht := readTag_writeTag 2 2 (by norm_num) (by norm_num) (writeVarint s.length ++ (s ++ rest))
  have hi := readString_write s rest hs
  rw [decodeNoteDeltaAux]
  simp only [hne, Bool.false_eq_true, if_false]
  split
  next heq => rw [ht] at heq; cases heq
  next fno2 wt2 rest2 heq =>
    rw [ht] at heq
    simp only [Option.some.injEq, Prod.mk.injEq] at heq
    obtain ⟨h1, h2, h3⟩ := heq
    subst h1
    subst h2
    subst h3
    rw [if_neg (by norm_num), if_pos rfl]
    split
    next heq => rw [hi] at heq; cases heq
    next a b heq =>
      rw [hi] at heq
      simp only [Option.some.injEq, Prod.mk.injEq] at heq
      obtain ⟨h1, h2⟩ := heq
      subst h1
      subst h2
      rfl

theorem decodeNoteDeltaAux_field3 (s : List Nat) (hs : s.length < 2 ^ 63) (rest : List Nat) (m : NoteDelta) :
    decodeNoteDeltaAux (writeTag 3 2 ++ (writeVarint s.length ++ (s ++ rest))) m = decodeNoteDeltaAux rest { m with body := some s } := by
  have hne : (writeTag 3 2 ++ (writeVarint s.length ++ (s ++ rest))).isEmpty = false := by
    rw [List.isEmpty_eq_false]
    exact List.append_ne_nil_of_left_ne_nil (writeTag_ne_nil 3 2) _
  have ht := readTag_writeTag 3 2 (by norm_num) (by norm_num) (writeVarint s.length ++ (s ++ rest))
  have hi := readString_write s rest hs
  rw [decodeNoteDeltaAux]
  simp only [hne, Bool.false_eq_true, if_false]
  split
  next heq => rw [ht] at heq; cases heq
  next fno2 wt2 rest2 heq =>
    rw [ht] at heq
    simp only [Option.some.injEq, Prod.mk.injEq] at heq
    obtain ⟨h1, h2, h3⟩ := heq
    subst h1
    subst h2
    subst h3
    rw [if_neg (by norm_num), if_neg (by norm_num), if_pos rfl]
    split
    next heq => rw [hi] at heq; cases heq
    next a b heq =>
      rw [hi] at heq
      simp only [Option.some.injEq, Prod.mk.injEq] at heq
      obtain ⟨h1, h2⟩ := heq
      subst h1
      subst h2
      rfl

theorem decodeNoteDeltaAux_field4 (v : Nat) (hv : v ≤ MAX_SAFE_INTEGER) (rest : List Nat) (m : NoteDelta) :
    decodeNoteDeltaAux (writeTag 4 0 ++ (writeVarint v ++ rest)) m = decodeNoteDeltaAux rest { m with updatedAtUnixMs := v } := by
  have hne : (writeTag 4 0 ++ (writeVarint v ++ rest)).isEmpty = false := by
    rw [List.isEmpty_eq_false]
    exact List.append_ne_nil_of_left_ne_nil (writeTag_ne_nil 4 0) _
  have ht := readTag_writeTag 4 0 (by norm_num) (by norm_num) (writeVarint v ++ rest)
  have hi := readInt64_write v hv rest
  rw [decodeNoteDeltaAux]
  simp only [hne, Bool.false_eq_true, if_false]
  split
  next heq => rw [ht] at heq; cases heq
  next fno2 wt2 rest2 heq =>
    rw [ht] at heq
    simp only [Option.some.injEq, Prod.mk.injEq] at heq
    obtain ⟨h1, h2, h3⟩ := heq
    subst h1
    subst h2
    subst h3
    rw [if_neg (by norm_num), if_neg (by norm_num), if_neg (by norm_num), if_pos rfl]
    split
    next heq => rw [hi] at heq; cases heq
    next a b heq =>
      rw [hi] at heq
      simp only [Option.some.injEq, Prod.mk.injEq] at heq
      obtain ⟨h1, h2⟩ := heq
      subst h1
      subst h2
      rfl

theorem decodeNoteDeltaAux_field5 (v : Nat) (hv : v ≤ MAX_SAFE_INTEGER) (rest : List Nat) (m : NoteDelta) :
    decodeNoteDeltaAux (writeTag 5 0 ++ (writeVarint v ++ rest)) m = decodeNoteDeltaAux rest { m with version := v } := by
  have hne : (writeTag 5 0 ++ (writeVarint v ++ rest)).isEmpty = false := by
    rw [List.isEmpty_eq_false]
    exact List.append_ne_nil_of_left_ne_nil (writeTag_ne_nil 5 0) _
  have ht := readTag_writeTag 5 0 (by norm_num) (by norm_num) (writeVarint v ++ rest)
  have hi := readInt64_write v hv rest
  rw [decodeNoteDeltaAux]
  simp only [hne, Bool.false_eq_true, if_false]
  split
  next heq => rw [ht] at heq; cases heq
  next fno2 wt2 rest2 heq =>
    rw [ht] at heq
    simp only [Option.some.injEq, Prod.mk.injEq] at heq
    obtain ⟨h1, h2, h3⟩ := heq
    subst h1
    subst h2
    subst h3
    rw [if_neg (by norm_num), if_neg (by norm_num), if_neg (by norm_num), if_neg (by norm_num), if_pos rfl]
    split
    next heq => rw [hi] at heq; cases heq
    next a b heq =>
      rw [hi] at heq
      simp only [Option.some.injEq, Prod.mk.injEq] at heq
      obtain ⟨h1, h2⟩ := heq
      subst h1
      subst h2
      rfl

theorem decodeNoteDeltaAux_junk (f : Nat) (hf : f < 2 ^ 29) (u : UnknownField)
    (hu : u.WF) (hn1 : f ≠ 1) (hn2 : f ≠ 2) (hn3 : f ≠ 3) (hn4 : f ≠ 4) (hn5 : f ≠ 5)
    (rest : List Nat) (m : NoteDelta) :
    decodeNoteDeltaAux (writeTag f u.wireType ++ (u.payload ++ rest)) m = decodeNoteDeltaAux rest m := by
  have hne : (writeTag f u.wireType ++ (u.payload ++ rest)).isEmpty = false := by
    rw [List.isEmpty_eq_false]
    exact List.append_ne_nil_of_left_ne_nil (writeTag_ne_nil f u.wireType) _
  have ht := readTag_writeTag f u.wireType hf u.wireType_lt (u.payload ++ rest)
  have hsk := skipField_unknown u hu rest
  rw [decodeNoteDeltaAux]
  simp only [hne, Bool.false_eq_true, if_false]
  split
  next heq => rw [ht] at heq; cases heq
  next fno2 wt2 rest2 heq =>
    rw [ht] at heq
    simp only [Option.some.injEq, Prod.mk.injEq] at heq
    obtain ⟨h1, h2, h3⟩ := heq
    subst h1
    subst h2
    subst h3
    rw [if_neg hn1, if_neg hn2, if_neg hn3, if_neg hn4, if_neg hn5]
    split
    next heq => rw [hsk] at heq; cases heq
    next r2 heq =>
      rw [hsk] at heq
      simp only [Option.some.injEq] at heq
      subst heq
      rfl

theorem decodeNoteDeltaAux_nil (m : NoteDelta) : decodeNoteDeltaAux [] m = some m := by
  rw [decodeNoteDeltaAux]
  rfl

theorem decodeNoteDeletedAux_field1 (v : Nat) (hv : v ≤ MAX_SAFE_INTEGER) (rest : List Nat) (m : NoteDeleted) :
    decodeNoteDeletedAux (writeTag 1 0 ++ (writeVarint v ++ rest)) m = decodeNoteDeletedAux rest { m with id := v } := by
  have hne : (writeTag 1 0 ++ (writeVarint v ++ rest)).isEmpty = false := by
    rw [List.isEmpty_eq_false]
    exact List.append_ne_nil_of_left_ne_nil (writeTag_ne_nil 1 0) _
  have ht := readTag_writeTag 1 0 (by norm_num) (by norm_num) (writeVarint v ++ rest)
  have hi := readInt64_write v hv rest
  rw [decodeNoteDeletedAux]
  simp only [hne, Bool.false_eq_true, if_false]
  split
  next heq => rw [ht] at heq; cases heq
  next fno2 wt2 rest2 heq =>
    rw [ht] at heq
    simp only [Option.some.injEq, Prod.mk.injEq] at heq
    obtain ⟨h1, h2, h3⟩ := heq
    subst h1
    subst h2
    subst h3
    rw [if_pos rfl]
    split
    next heq => rw [hi] at heq; cases heq
    next a b heq =>
      rw [hi] at heq
      simp only [Option.some.injEq, Prod.mk.injEq] at heq
      obtain ⟨h1, h2⟩ := heq
      subst h1
      subst h2
      rfl

theorem decodeNoteDeletedAux_junk (f : Nat) (hf : f < 2 ^ 29) (u : UnknownField)
    (hu : u.WF) (hn1 : f ≠ 1)
    (rest : List Nat) (m : NoteDeleted) :
    decodeNoteDeletedAux (writeTag f u.wireType ++ (u.payload ++ rest)) m = decodeNoteDeletedAux rest m := by
  have hne : (writeTag f u.wireType ++ (u.payload ++ rest)).isEmpty = false := by
    rw [List.isEmpty_eq_false]
    exact List.append_ne_nil_of_left_ne_nil (writeTag_ne_nil f u.wireType) _
  have ht := readTag_writeTag f u.wireType hf u.wireType_lt (u.payload ++ rest)
  have hsk := skipField_unknown u hu rest
  rw [decodeNoteDeletedAux]
  simp only [hne, Bool.false_eq_true, if_false]
  split
  next heq => rw [ht] at heq; cases heq
  next fno2 wt2 rest2 heq =>
    rw [ht] at heq
    simp only [Option.some.injEq, Prod.mk.injEq] at heq
    obtain ⟨h1, h2, h3⟩ := heq
    subst h1
    subst h2
    subst h3
    rw [if_neg hn1]
    split
    next heq => rw [hsk] at heq; cases heq
    next r2 heq =>
      rw [hsk] at heq
      simp only [Option.some.injEq] at heq
      subst heq
      rfl

theorem decodeNoteDeletedAux_nil (m : NoteDeleted) : decodeNoteDeletedAux [] m = some m := by
  rw [decodeNoteDeletedAux]
  rfl

theorem decodeNoteEventAux_field1 (p : List Nat) (hp : p.length < 2 ^ 63) (n : Note) (hd : decodeNote p = some n) (rest : List Nat) (m : NoteEvent) :
    decodeNoteEventAux (writeTag 1 2 ++ (writeVarint p.length ++ (p ++ rest))) m = decodeNoteEventAux rest { event := some (.created n) } := by
  have hne : (writeTag 1 2 ++ (writeVarint p.length ++ (p ++ rest))).isEmpty = false := by
    rw [List.isEmpty_eq_false]
    exact List.append_ne_nil_of_left_ne_nil (writeTag_ne_nil 1 2) _
  have ht := readTag_writeTag 1 2 (by norm_num) (by norm_num) (writeVarint p.length ++ (p ++ rest))
  have hi := readBytes_write p rest hp
  rw [decodeNoteEventAux]
  simp only [hne, Bool.false_eq_true, if_false]
  split
  next heq => rw [ht] at heq; cases heq
  next fno2 wt2 rest2 heq =>
    rw [ht] at heq
    simp only [Option.some.injEq, Prod.mk.injEq] at heq
    obtain ⟨h1, h2, h3⟩ := heq
    subst h1
    subst h2
    subst h3
    rw [if_pos rfl]
    split
    next heq => rw [hi] at heq; cases heq
    next a b heq =>
      rw [hi] at heq
      simp only [Option.some.injEq, Prod.mk.injEq] at heq
      obtain ⟨h1, h2⟩ := heq
      subst h1
      subst h2
      rw [hd]

theorem decodeNoteEventAux_field2 (p : List Nat) (hp : p.length < 2 ^ 63) (n : NoteDelta) (hd : decodeNoteDelta p = some n) (rest : List Nat) (m : NoteEvent) :
    decodeNoteEventAux (writeTag 2 2 ++ (writeVarint p.length ++ (p ++ rest))) m = decodeNoteEventAux rest { event := some (.updated n) } := by
  have hne : (writeTag 2 2 ++ (writeVarint p.length ++ (p ++ rest))).isEmpty = false := by
    rw [List.isEmpty_eq_false]
    exact List.append_ne_nil_of_left_ne_nil (writeTag_ne_nil 2 2) _
  have ht := readTag_writeTag 2 2 (by norm_num) (by norm_num) (writeVarint p.length ++ (p ++ rest))
  have hi := readBytes_write p rest hp
  rw [decodeNoteEventAux]
  simp only [hne, Bool.false_eq_true, if_false]
  split
  next heq => rw [ht] at heq; cases heq
  next fno2 wt2 rest2 heq =>
    rw [ht] at heq
    simp only [Option.some.injEq, Prod.mk.injEq] at heq
    obtain ⟨h1, h2, h3⟩ := heq
    subst h1
    subst h2
    subst h3
    rw [if_neg (by norm_num), if_pos rfl]
    split
    next heq => rw [hi] at heq; cases heq
    next a b heq =>
      rw [hi] at heq
      simp only [Option.some.injEq, Prod.mk.injEq] at heq
      obtain ⟨h1, h2⟩ := heq
      subst h1
      subst h2
      rw [hd]

theorem decodeNoteEventAux_field3 (p : List Nat) (hp : p.length < 2 ^ 63) (n : NoteDeleted) (hd : decodeNoteDeleted p = some n) (rest : List Nat) (m : NoteEvent) :
    decodeNoteEventAux (writeTag 3 2 ++ (writeVarint p.length ++ (p ++ rest))) m = decodeNoteEventAux rest { event := some (.deleted n) } := by
  have hne : (writeTag 3 2 ++ (writeVarint p.length ++ (p ++ rest))).isEmpty = false := by
    rw [List.isEmpty_eq_false]
    exact List.append_ne_nil_of_left_ne_nil (writeTag_ne_nil 3 2) _
  have ht := readTag_writeTag 3 2 (by norm_num) (by norm_num) (writeVarint p.length ++ (p ++ rest))
  have hi := readBytes_write p rest hp
  rw [decodeNoteEventAux]
  simp only [hne, Bool.false_eq_true, if_false]
  split
  next heq => rw [ht] at heq; cases heq
  next fno2 wt2 rest2 heq =>
    rw [ht] at heq
    simp only [Option.some.injEq, Prod.mk.injEq] at heq
    obtain ⟨h1, h2, h3⟩ := heq
    subst h1
    subst h2
    subst h3
    rw [if_neg (by norm_num), if_neg (by norm_num), if_pos rfl]
    split
    next heq => rw [hi] at heq; cases heq
    next a b heq =>
      rw [hi] at heq
      simp only [Option.some.injEq, Prod.mk.injEq] at heq
      obtain ⟨h1, h2⟩ := heq
      subst h1
      subst h2
      rw [hd]

theorem decodeNoteEventAux_junk (f : Nat) (hf : f < 2 ^ 29) (u : UnknownField)
    (hu : u.WF) (hn1 : f ≠ 1) (hn2 : f ≠ 2) (hn3 : f ≠ 3)
    (rest : List Nat) (m : NoteEvent) :
    decodeNoteEventAux (writeTag f u.wireType ++ (u.payload ++ rest)) m = decodeNoteEventAux rest m := by
  have hne : (writeTag f u.wireType ++ (u.payload ++ rest)).isEmpty = false := by
    rw [List.isEmpty_eq_false]
    exact List.append_ne_nil_of_left_ne_nil (writeTag_ne_nil f u.wireType) _
  have ht := readTag_writeTag f u.wireType hf u.wireType_lt (u.payload ++ rest)
  have hsk := skipField_unknown u hu rest
  rw [decodeNoteEventAux]
  simp only [hne, Bool.false_eq_true, if_false]
  split
  next heq => rw [ht] at heq; cases heq
  next fno2 wt2 rest2 heq =>
    rw [ht] at heq
    simp only [Option.some.injEq, Prod.mk.injEq] at heq
    obtain ⟨h1, h2, h3⟩ := heq
    subst h1
    subst h2
    subst h3
    rw [if_neg hn1, if_neg hn2, if_neg hn3]
    split
    next heq => rw [hsk] at heq; cases heq
    next r2 heq =>
      rw [hsk] at heq
      simp only [Option.some.injEq] at heq
      subst heq
      rfl

theorem decodeNoteEventAux_nil (m : NoteEvent) : decodeNoteEventAux [] m = some m := by
  rw [decodeNoteEventAux]
  rfl

/-! Well-formed message values: integer fields in the safe-integer range
(what the encoder accepts), text lengths within the JS typed-array limit. -/

/-- Well-formed Note. -/
def WFNote (m : Note) : Prop :=
  m.id ≤ MAX_SAFE_INTEGER ∧ m.createdAtUnixMs ≤ MAX_SAFE_INTEGER ∧
  m.updatedAtUnixMs ≤ MAX_SAFE_INTEGER ∧ m.version ≤ MAX_SAFE_INTEGER ∧
  m.title.length ≤ MAX_SAFE_INTEGER ∧ m.body.length ≤ MAX_SAFE_INTEGER

/-- Well-formed CreateNoteRequest. -/
def WFCreateNoteRequest (m : CreateNoteRequest) : Prop :=
  m.title.length ≤ MAX_SAFE_INTEGER ∧ m.body.length ≤ MAX_SAFE_INTEGER

/-- Well-formed CreateNoteResponse. -/
def WFCreateNoteResponse (m : CreateNoteResponse) : Prop :=
  match m.note with
  | none => True
  | some n => WFNote n

/-- Well-formed GetNoteResponse. -/
def WFGetNoteResponse (m : GetNoteResponse) : Prop :=
  match m.note with
  | none => True
  | some n => WFNote n

/-- Well-formed ListNotesResponse. -/
def WFListNotesResponse (m : ListNotesResponse) : Prop :=
  ∀ n ∈ m.notes, WFNote n

/-- Well-formed UpdateNoteRequest. -/
def WFUpdateNoteRequest (m : UpdateNoteRequest) : Prop :=
  (match m.title with
   | none => True
   | some t => t.length ≤ MAX_SAFE_INTEGER) ∧
  (match m.body with
   | none => True
   | some b => b.length ≤ MAX_SAFE_INTEGER)

/-- Well-formed UpdateNoteResponse. -/
def WFUpdateNoteResponse (m : UpdateNoteResponse) : Prop :=
  match m.note with
  | none => True
  | some n => WFNote n

/-- Well-formed DeleteNoteResponse. -/
def WFDeleteNoteResponse (m : DeleteNoteResponse) : Prop :=
  m.id ≤ MAX_SAFE_INTEGER

/-- Well-formed NoteDelta. -/
def WFNoteDelta (m : NoteDelta) : Prop :=
  m.id ≤ MAX_SAFE_INTEGER ∧ m.updatedAtUnixMs ≤ MAX_SAFE_INTEGER ∧
  m.version ≤ MAX_SAFE_INTEGER ∧
  (match m.title with
   | none => True
   | some t => t.length ≤ MAX_SAFE_INTEGER) ∧
  (match m.body with
   | none => True
   | some b => b.length ≤ MAX_SAFE_INTEGER)

/-- Well-formed NoteDeleted. -/
def WFNoteDeleted (m : NoteDeleted) : Prop :=
  m.id ≤ MAX_SAFE_INTEGER

/-- Well-formed NoteEvent. -/
def WFNoteEvent (m : NoteEvent) : Prop :=
  match m.event with
  | none => True
  | some (.created n) => WFNote n
  | some (.updated d) => WFNoteDelta d
  | some (.deleted d) => WFNoteDeleted d

/-! Facts about numberToVarint on in-range naturals, and length bounds on
the varint encoding. -/

theorem numberToVarint_nat (v : Nat) (hv : v ≤ MAX_SAFE_INTEGER) :
    numberToVarint (.int v) = some v := by
  simp only [numberToVarint]
  rw [if_neg (by omega), if_neg (by omega)]
  simp

theorem writeVarint_length_le : ∀ (k n : Nat), n < 2 ^ (7 * k + 7) →
    (writeVarint n).length ≤ k + 1 := by
  intro k
  induction k with
  | zero =>
    intro n hn
    rw [writeVarint]
    norm_num at hn
    simp [hn]
  | succ k ih =>
    intro n hn
    rw [writeVarint]
    by_cases h : n < 0x80
    · simp [h]
    · rw [dif_neg h]
      have hd : n / 0x80 < 2 ^ (7 * k + 7) := by
        rw [Nat.div_lt_iff_lt_mul (by norm_num)]
        calc n < 2 ^ (7 * (k + 1) + 7) := hn
          _ = 2 ^ (7 * k + 7) * 0x80 := by
              rw [show 7 * (k + 1) + 7 = (7 * k + 7) + 7 by ring, pow_add]
              norm_num
      have := ih _ hd
      simp only [List.length_cons]
      omega

theorem writeVarint_le_eight (n : Nat) (hn : n ≤ MAX_SAFE_INTEGER) :
    (writeVarint n).length ≤ 8 := by
  have : n < 2 ^ (7 * 7 + 7) := by
    have h2 : MAX_SAFE_INTEGER < 2 ^ 56 := by norm_num [MAX_SAFE_INTEGER]
    omega
  exact writeVarint_length_le 7 n this

theorem writeTag_eq (f wt : Nat) (hwt : wt < 8) :
    writeTag f wt = writeVarint (wt + f * 2 ^ 3) := by
  unfold writeTag
  rw [Nat.shiftLeft_eq, Nat.lor_comm, lor_lowhigh 3 wt f hwt]

theorem writeTag_length_le (f wt : Nat) (hf : f < 2 ^ 29) (hwt : wt < 8) :
    (writeTag f wt).length ≤ 5 := by
  rw [writeTag_eq f wt hwt]
  apply writeVarint_length_le 4
  norm_num
  nlinarith

/-! Field-chunk decomposition of each encoder: the encoded buffer is the
concatenation of one chunk per present field, in write order. -/

/-- The byte chunks encodeNote writes, in order. -/
def noteChunks (m : Note) : List (List Nat) :=
  [writeTag 1 0 ++ writeVarint m.id,
   writeString 2 m.title,
   writeString 3 m.body,
   writeTag 4 0 ++ writeVarint m.createdAtUnixMs,
   writeTag 5 0 ++ writeVarint m.updatedAtUnixMs,
   writeTag 6 0 ++ writeVarint m.version]

/-- The byte chunks encodeCreateNoteRequest writes. -/
def createNoteRequestChunks (m : CreateNoteRequest) : List (List Nat) :=
  [writeString 1 m.title, writeString 2 m.body]

/-- The byte chunks encodeCreateNoteResponse writes. -/
def createNoteResponseChunks (m : CreateNoteResponse) : List (List Nat) :=
  match m.note with
  | none => []
  | some n => [writeMessage 1 (noteChunks n).flatten]

/-- The byte chunks encodeGetNoteResponse writes. -/
def getNoteResponseChunks (m : GetNoteResponse) : List (List Nat) :=
  match m.note with
  | none => []
  | some n => [writeMessage 1 (noteChunks n).flatten]

/-- The byte chunks encodeListNotesResponse writes (one per note, in order). -/
def listNotesResponseChunks (m : ListNotesResponse) : List (List Nat) :=
  m.notes.map fun n => writeMessage 1 (noteChunks n).flatten

/-- The byte chunks encodeUpdateNoteRequest writes. -/
def updateNoteRequestChunks (m : UpdateNoteRequest) : List (List Nat) :=
  (match m.title with
   | none => []
   | some t => [writeString 1 t]) ++
  (match m.body with
   | none => []
   | some b => [writeString 2 b])

/-- The byte chunks encodeUpdateNoteResponse writes. -/
def updateNoteResponseChunks (m : UpdateNoteResponse) : List (List Nat) :=
  match m.note with
  | none => []
  | some n => [writeMessage 1 (noteChunks n).flatten]

/-- The byte chunks encodeDeleteNoteResponse writes. -/
def deleteNoteResponseChunks (m : DeleteNoteResponse) : List (List Nat) :=
  [writeTag 1 0 ++ writeVarint m.id]

/-- The byte chunks encodeNoteDelta writes (optional fields omitted). -/
def noteDeltaChunks (m : NoteDelta) : List (List Nat) :=
  [writeTag 1 0 ++ writeVarint m.id] ++
  (match m.title with
   | none => []
   | some t => [writeString 2 t]) ++
  (match m.body with
   | none => []
   | some b => [writeString 3 b]) ++
  [writeTag 4 0 ++ writeVarint m.updatedAtUnixMs,
   writeTag 5 0 ++ writeVarint m.version]

/-- The byte chunks encodeNoteDeleted writes. -/
def noteDeletedChunks (m : NoteDeleted) : List (List Nat) :=
  [writeTag 1 0 ++ writeVarint m.id]

/-- The byte chunks encodeNoteEvent writes (the single member, if any). -/
def noteEventChunks (m : NoteEvent) : List (List Nat) :=
  match m.event with
  | none => []
  | some (.created n) => [writeMessage 1 (noteChunks n).flatten]
  | some (.updated d) => [writeMessage 2 (noteDeltaChunks d).flatten]
  | some (.deleted d) => [writeMessage 3 (noteDeletedChunks d).flatten]

/-! Each encoder produces exactly the concatenation of its field chunks. -/

theorem encodeNote_chunks (m : Note) (hm : WFNote m) :
    encodeNote m = some (noteChunks m).flatten := by
  obtain ⟨h1, h2, h3, h4, h5, h6⟩ := hm
  simp only [encodeNote, writeInt64, numberToVarint_nat _ h1, numberToVarint_nat _ h2,
    numberToVarint_nat _ h3, numberToVarint_nat _ h4, Option.map_some', Option.some_bind]
  simp [noteChunks, List.append_assoc]

theorem encodeCreateNoteRequest_chunks (m : CreateNoteRequest) :
    encodeCreateNoteRequest m = (createNoteRequestChunks m).flatten := by
  simp [encodeCreateNoteRequest, createNoteRequestChunks, List.append_assoc]

theorem encodeCreateNoteResponse_chunks (m : CreateNoteResponse) (hm : WFCreateNoteResponse m) :
    encodeCreateNoteResponse m = some (createNoteResponseChunks m).flatten := by
  obtain ⟨note⟩ := m
  cases note with
  | none => simp [encodeCreateNoteResponse, createNoteResponseChunks]
  | some n =>
    have hn : WFNote n := hm
    simp [encodeCreateNoteResponse, createNoteResponseChunks, encodeNote_chunks n hn]

theorem encodeGetNoteResponse_chunks (m : GetNoteResponse) (hm : WFGetNoteResponse m) :
    encodeGetNoteResponse m = some (getNoteResponseChunks m).flatten := by
  obtain ⟨note⟩ := m
  cases note with
  | none => simp [encodeGetNoteResponse, getNoteResponseChunks]
  | some n =>
    have hn : WFNote n := hm
    simp [encodeGetNoteResponse, getNoteResponseChunks, encodeNote_chunks n hn]

theorem encodeUpdateNoteResponse_chunks (m : UpdateNoteResponse) (hm : WFUpdateNoteResponse m) :
    encodeUpdateNoteResponse m = some (updateNoteResponseChunks m).flatten := by
  obtain ⟨note⟩ := m
  cases note with
  | none => simp [encodeUpdateNoteResponse, updateNoteResponseChunks]
  | some n =>
    have hn : WFNote n := hm
    simp [encodeUpdateNoteResponse, updateNoteResponseChunks, encodeNote_chunks n hn]

theorem encodeListNotesResponse_chunks (m : ListNotesResponse) (hm : WFListNotesResponse m) :
    encodeListNotesResponse m = some (listNotesResponseChunks m).flatten := by
  obtain ⟨notes⟩ := m
  simp only [WFListNotesResponse] at hm
  simp only [encodeListNotesResponse, listNotesResponseChunks]
  have hmap : notes.mapM (fun n => (encodeNote n).map fun p => writeMessage 1 p)
      = some (notes.map fun n => writeMessage 1 (noteChunks n).flatten) := by
    induction notes with
    | nil => rfl
    | cons n ns ih =>
      have hn : WFNote n := hm n (by simp)
      have hns : ∀ x ∈ ns, WFNote x := fun x hx => hm x (by simp [hx])
      rw [List.mapM_cons, encodeNote_chunks n hn]
      simp only [Option.map_some']
      rw [ih hns]
      rfl
  rw [hmap]
  rfl

theorem encodeUpdateNoteRequest_chunks (m : UpdateNoteRequest) :
    encodeUpdateNoteRequest m = (updateNoteRequestChunks m).flatten := by
  obtain ⟨t, b⟩ := m
  cases t <;> cases b <;>
    simp [encodeUpdateNoteRequest, updateNoteRequestChunks, List.append_assoc]

theorem encodeDeleteNoteResponse_chunks (m : DeleteNoteResponse) (hm : WFDeleteNoteResponse m) :
    encodeDeleteNoteResponse m = some (deleteNoteResponseChunks m).flatten := by
  simp [encodeDeleteNoteResponse, writeInt64, numberToVarint_nat _ hm,
    deleteNoteResponseChunks]

theorem encodeNoteDelta_chunks (m : NoteDelta) (hm : WFNoteDelta m) :
    encodeNoteDelta m = some (noteDeltaChunks m).flatten := by
  obtain ⟨mid, mtitle, mbody, mu, mv⟩ := m
  obtain ⟨h1, h2, h3, h4, h5⟩ := hm
  simp only [encodeNoteDelta, writeInt64, numberToVarint_nat _ h1, numberToVarint_nat _ h2,
    numberToVarint_nat _ h3, Option.map_some', Option.some_bind]
  cases mtitle <;> cases mbody <;>
    simp [noteDeltaChunks, List.append_assoc]

theorem encodeNoteDeleted_chunks (m : NoteDeleted) (hm : WFNoteDeleted m) :
    encodeNoteDeleted m = some (noteDeletedChunks m).flatten := by
  simp [encodeNoteDeleted, writeInt64, numberToVarint_nat _ hm, noteDeletedChunks]

theorem encodeNoteEvent_chunks (m : NoteEvent) (hm : WFNoteEvent m) :
    encodeNoteEvent m = some (noteEventChunks m).flatten := by
  obtain ⟨ev⟩ := m
  cases ev with
  | none => simp [encodeNoteEvent, noteEventChunks]
  | some c =>
    cases c with
    | created n =>
      have hn : WFNote n := hm
      simp [encodeNoteEvent, noteEventChunks, encodeNote_chunks n hn]
    | updated d =>
      have hd : WFNoteDelta d := hm
      simp [encodeNoteEvent, noteEventChunks, encodeNoteDelta_chunks d hd]
    | deleted d =>
      have hd : WFNoteDeleted d := hm
      simp [encodeNoteEvent, noteEventChunks, encodeNoteDeleted_chunks d hd]

/-! Length bounds on encoded payloads (they fit a varint length prefix). -/

theorem noteChunks_flatten_length (m : Note) (hm : WFNote m) :
    (noteChunks m).flatten.length < 2 ^ 63 := by
  obtain ⟨h1, h2, h3, h4, h5, h6⟩ := hm
  have t1 := writeTag_length_le 1 0 (by norm_num) (by norm_num)
  have t2 := writeTag_length_le 2 2 (by norm_num) (by norm_num)
  have t3 := writeTag_length_le 3 2 (by norm_num) (by norm_num)
  have t4 := writeTag_length_le 4 0 (by norm_num) (by norm_num)
  have t5 := writeTag_length_le 5 0 (by norm_num) (by norm_num)
  have t6 := writeTag_length_le 6 0 (by norm_num) (by norm_num)
  have e1 := writeVarint_le_eight _ h1
  have e2 := writeVarint_le_eight _ h2
  have e3 := writeVarint_le_eight _ h3
  have e4 := writeVarint_le_eight _ h4
  have e5 := writeVarint_le_eight _ h5
  have e6 := writeVarint_le_eight _ h6
  have hM : MAX_SAFE_INTEGER = 2 ^ 53 - 1 := rfl
  simp only [noteChunks, writeString, List.flatten_cons, List.flatten_nil,
    List.length_append, List.length_nil]
  omega

theorem noteDeltaChunks_flatten_length (m : NoteDelta) (hm : WFNoteDelta m) :
    (noteDeltaChunks m).flatten.length < 2 ^ 63 := by
  obtain ⟨h1, h2, h3, h4, h5⟩ := hm
  have t1 := writeTag_length_le 1 0 (by norm_num) (by norm_num)
  have t2 := writeTag_length_le 2 2 (by norm_num) (by norm_num)
  have t3 := writeTag_length_le 3 2 (by norm_num) (by norm_num)
  have t4 := writeTag_length_le 4 0 (by norm_num) (by norm_num)
  have t5 := writeTag_length_le 5 0 (by norm_num) (by norm_num)
  have e1 := writeVarint_le_eight _ h1
  have e4 := writeVarint_le_eight _ h2
  have e5 := writeVarint_le_eight _ h3
  have hM : MAX_SAFE_INTEGER = 2 ^ 53 - 1 := rfl
  rcases htitle : m.title with _ | t
  · rcases hbody : m.body with _ | b
    · simp only [noteDeltaChunks, htitle, hbody, writeString, List.flatten_cons,
        List.flatten_nil, List.nil_append, List.append_nil, List.cons_append,
        List.length_append, List.length_nil]
      omega
    · have hb : b.length ≤ MAX_SAFE_INTEGER := by rw [hbody] at h5; exact h5
      have eb := writeVarint_le_eight _ hb
      simp only [noteDeltaChunks, htitle, hbody, writeString, List.flatten_cons,
        List.flatten_nil, List.nil_append, List.append_nil, List.cons_append,
        List.length_append, List.length_nil]
      omega
  · have ht : t.length ≤ MAX_SAFE_INTEGER := by rw [htitle] at h4; exact h4
    have et := writeVarint_le_eight _ ht
    rcases hbody : m.body with _ | b
    · simp only [noteDeltaChunks, htitle, hbody, writeString, List.flatten_cons,
        List.flatten_nil, List.nil_append, List.append_nil, List.cons_append,
        List.length_append, List.length_nil]
      omega
    · have hb : b.length ≤ MAX_SAFE_INTEGER := by rw [hbody] at h5; exact h5
      have eb := writeVarint_le_eight _ hb
      simp only [noteDeltaChunks, htitle, hbody, writeString, List.flatten_cons,
        List.flatten_nil, List.nil_append, List.append_nil, List.cons_append,
        List.length_append, List.length_nil]
      omega

theorem noteDeletedChunks_flatten_length (m : NoteDeleted) (hm : WFNoteDeleted m) :
    (noteDeletedChunks m).flatten.length < 2 ^ 63 := by
  have t1 := writeTag_length_le 1 0 (by norm_num) (by norm_num)
  have e1 := writeVarint_le_eight _ hm
  have hM : MAX_SAFE_INTEGER = 2 ^ 53 - 1 := rfl
  simp only [noteDeletedChunks, List.flatten_cons, List.flatten_nil,
    List.length_append, List.length_nil]
  omega


/-! Step-lemma variants for a field chunk at the very end of the buffer. -/

theorem decodeUpdateNoteRequestAux_field1_last (s : List Nat) (hs : s.length < 2 ^ 63)
    (m : UpdateNoteRequest) :
    decodeUpdateNoteRequestAux (writeTag 1 2 ++ (writeVarint s.length ++ s)) m
      = some { m with title := some s } := by
  have h := decodeUpdateNoteRequestAux_field1 s hs [] m
  rw [List.append_nil] at h
  rw [h, decodeUpdateNoteRequestAux_nil]

theorem decodeUpdateNoteRequestAux_field2_last (s : List Nat) (hs : s.length < 2 ^ 63)
    (m : UpdateNoteRequest) :
    decodeUpdateNoteRequestAux (writeTag 2 2 ++ (writeVarint s.length ++ s)) m
      = some { m with body := some s } := by
  have h := decodeUpdateNoteRequestAux_field2 s hs [] m
  rw [List.append_nil] at h
  rw [h, decodeUpdateNoteRequestAux_nil]

theorem decodeNoteDeltaAux_field5_last (v : Nat) (hv : v ≤ MAX_SAFE_INTEGER)
    (m : NoteDelta) :
    decodeNoteDeltaAux (writeTag 5 0 ++ writeVarint v) m
      = some { m with version := v } := by
  have h := decodeNoteDeltaAux_field5 v hv [] m
  rw [List.append_nil] at h
  rw [h, decodeNoteDeltaAux_nil]

/-! Decode round trips: each decoder recovers the message from its chunks. -/

theorem decodeNote_chunks (m : Note) (hm : WFNote m) :
    decodeNote (noteChunks m).flatten = some m := by
  obtain ⟨h1, h2, h3, h4, h5, h6⟩ := hm
  have hM : MAX_SAFE_INTEGER < 2 ^ 63 := by norm_num [MAX_SAFE_INTEGER]
  simp only [decodeNote, noteChunks, List.flatten_cons, List.flatten_nil, writeString,
    List.append_assoc]
  rw [decodeNoteAux_field1 m.id h1,
      decodeNoteAux_field2 m.title (by omega),
      decodeNoteAux_field3 m.body (by omega),
      decodeNoteAux_field4 m.createdAtUnixMs h2,
      decodeNoteAux_field5 m.updatedAtUnixMs h3,
      decodeNoteAux_field6 m.version h4,
      decodeNoteAux_nil]

theorem decodeCreateNoteRequest_chunks (m : CreateNoteRequest) (hm : WFCreateNoteRequest m) :
    decodeCreateNoteRequest (createNoteRequestChunks m).flatten = some m := by
  obtain ⟨h1, h2⟩ := hm
  have hM : MAX_SAFE_INTEGER < 2 ^ 63 := by norm_num [MAX_SAFE_INTEGER]
  simp only [decodeCreateNoteRequest, createNoteRequestChunks, List.flatten_cons,
    List.flatten_nil, writeString, List.append_assoc]
  rw [decodeCreateNoteRequestAux_field1 m.title (by omega),
      decodeCreateNoteRequestAux_field2 m.body (by omega),
      decodeCreateNoteRequestAux_nil]

theorem decodeCreateNoteResponse_chunks (m : CreateNoteResponse) (hm : WFCreateNoteResponse m) :
    decodeCreateNoteResponse (createNoteResponseChunks m).flatten = some m := by
  obtain ⟨note⟩ := m
  cases note with
  | none =>
    simp only [createNoteResponseChunks, List.flatten_nil]
    rw [decodeCreateNoteResponse, decodeCreateNoteResponseAux_nil]
  | some n =>
    have hn : WFNote n := hm
    simp only [decodeCreateNoteResponse, createNoteResponseChunks, List.flatten_cons,
      List.flatten_nil, writeMessage, List.append_assoc]
    rw [decodeCreateNoteResponseAux_field1 _ (noteChunks_flatten_length n hn) n
        (decodeNote_chunks n hn),
      decodeCreateNoteResponseAux_nil]

theorem decodeGetNoteResponse_chunks (m : GetNoteResponse) (hm : WFGetNoteResponse m) :
    decodeGetNoteResponse (getNoteResponseChunks m).flatten = some m := by
  obtain ⟨note⟩ := m
  cases note with
  | none =>
    simp only [getNoteResponseChunks, List.flatten_nil]
    rw [decodeGetNoteResponse, decodeGetNoteResponseAux_nil]
  | some n =>
    have hn : WFNote n := hm
    simp only [decodeGetNoteResponse, getNoteResponseChunks, List.flatten_cons,
      List.flatten_nil, writeMessage, List.append_assoc]
    rw [decodeGetNoteResponseAux_field1 _ (noteChunks_flatten_length n hn) n
        (decodeNote_chunks n hn),
      decodeGetNoteResponseAux_nil]

theorem decodeUpdateNoteResponse_chunks (m : UpdateNoteResponse) (hm : WFUpdateNoteResponse m) :
    decodeUpdateNoteResponse (updateNoteResponseChunks m).flatten = some m := by
  obtain ⟨note⟩ := m
  cases note with
  | none =>
    simp only [updateNoteResponseChunks, List.flatten_nil]
    rw [decodeUpdateNoteResponse, decodeUpdateNoteResponseAux_nil]
  | some n =>
    have hn : WFNote n := hm
    simp only [decodeUpdateNoteResponse, updateNoteResponseChunks, List.flatten_cons,
      List.flatten_nil, writeMessage, List.append_assoc]
    rw [decodeUpdateNoteResponseAux_field1 _ (noteChunks_flatten_length n hn) n
        (decodeNote_chunks n hn),
      decodeUpdateNoteResponseAux_nil]

theorem decodeListNotesResponseAux_chunks : ∀ (notes : List Note) (acc : ListNotesResponse),
    (∀ n ∈ notes, WFNote n) →
    decodeListNotesResponseAux
        (List.flatten (notes.map fun n => writeMessage 1 (noteChunks n).flatten)) acc
      = some { notes := acc.notes ++ notes } := by
  intro notes
  induction notes with
  | nil =>
    intro acc h
    simp only [List.map_nil, List.flatten_nil, List.append_nil]
    rw [decodeListNotesResponseAux_nil]
  | cons n ns ih =>
    intro acc h
    have hn := h n (by simp)
    have hns : ∀ x ∈ ns, WFNote x := fun x hx => h x (by simp [hx])
    simp only [List.map_cons, List.flatten_cons]
    rw [writeMessage]
    simp only [List.append_assoc]
    rw [decodeListNotesResponseAux_field1 _ (noteChunks_flatten_length n hn) n
        (decodeNote_chunks n hn)]
    rw [ih _ hns]
    simp

theorem decodeListNotesResponse_chunks (m : ListNotesResponse) (hm : WFListNotesResponse m) :
    decodeListNotesResponse (listNotesResponseChunks m).flatten = some m := by
  obtain ⟨notes⟩ := m
  simp only [WFListNotesResponse] at hm
  simp only [decodeListNotesResponse, listNotesResponseChunks]
  rw [decodeListNotesResponseAux_chunks notes _ hm]
  rfl

theorem decodeUpdateNoteRequest_chunks (m : UpdateNoteRequest) (hm : WFUpdateNoteRequest m) :
    decodeUpdateNoteRequest (updateNoteRequestChunks m).flatten = some m := by
  obtain ⟨mtitle, mbody⟩ := m
  obtain ⟨h1, h2⟩ := hm
  have hM : MAX_SAFE_INTEGER < 2 ^ 63 := by norm_num [MAX_SAFE_INTEGER]
  cases mtitle with
  | none =>
    cases mbody with
    | none =>
      simp only [updateNoteRequestChunks, List.nil_append, List.flatten_nil]
      rw [decodeUpdateNoteRequest, decodeUpdateNoteRequestAux_nil]
    | some b =>
      have hb : b.length ≤ MAX_SAFE_INTEGER := h2
      simp only [decodeUpdateNoteRequest, updateNoteRequestChunks, List.nil_append,
        List.flatten_cons, List.flatten_nil, List.append_nil, writeString, List.append_assoc]
      rw [decodeUpdateNoteRequestAux_field2_last b (by omega)]
  | some t =>
    have ht : t.length ≤ MAX_SAFE_INTEGER := h1
    cases mbody with
    | none =>
      simp only [decodeUpdateNoteRequest, updateNoteRequestChunks, List.cons_append,
        List.nil_append, List.flatten_cons, List.flatten_nil, List.append_nil,
        writeString, List.append_assoc]
      rw [decodeUpdateNoteRequestAux_field1_last t (by omega)]
    | some b =>
      have hb : b.length ≤ MAX_SAFE_INTEGER := h2
      simp only [decodeUpdateNoteRequest, updateNoteRequestChunks, List.cons_append,
        List.nil_append, List.flatten_cons, List.flatten_nil, List.append_nil,
        writeString, List.append_assoc]
      rw [decodeUpdateNoteRequestAux_field1 t (by omega),
        decodeUpdateNoteRequestAux_field2_last b (by omega)]

theorem decodeDeleteNoteResponse_chunks (m : DeleteNoteResponse) (hm : WFDeleteNoteResponse m) :
    decodeDeleteNoteResponse (deleteNoteResponseChunks m).flatten = some m := by
  simp only [decodeDeleteNoteResponse, deleteNoteResponseChunks, List.flatten_cons,
    List.flatten_nil, List.append_assoc]
  rw [decodeDeleteNoteResponseAux_field1 m.id hm, decodeDeleteNoteResponseAux_nil]

theorem decodeNoteDelta_chunks (m : NoteDelta) (hm : WFNoteDelta m) :
    decodeNoteDelta (noteDeltaChunks m).flatten = some m := by
  obtain ⟨mid, mtitle, mbody, mu, mv⟩ := m
  obtain ⟨h1, h2, h3, h4, h5⟩ := hm
  have hM : MAX_SAFE_INTEGER < 2 ^ 63 := by norm_num [MAX_SAFE_INTEGER]
  cases mtitle with
  | none =>
    cases mbody with
    | none =>
      simp only [decodeNoteDelta, noteDeltaChunks, List.cons_append, List.nil_append,
        List.flatten_cons, List.flatten_nil, List.append_nil, writeString, List.append_assoc]
      rw [decodeNoteDeltaAux_field1 mid h1,
        decodeNoteDeltaAux_field4 mu h2,
        decodeNoteDeltaAux_field5_last mv h3]
      rfl
    | some b =>
      have hb : b.length ≤ MAX_SAFE_INTEGER := h5
      simp only [decodeNoteDelta, noteDeltaChunks, List.cons_append, List.nil_append,
        List.flatten_cons, List.flatten_nil, List.append_nil, writeString, List.append_assoc]
      rw [decodeNoteDeltaAux_field1 mid h1,
        decodeNoteDeltaAux_field3 b (by omega),
        decodeNoteDeltaAux_field4 mu h2,
        decodeNoteDeltaAux_field5_last mv h3]
      rfl
  | some t =>
    have ht : t.length ≤ MAX_SAFE_INTEGER := h4
    cases mbody with
    | none =>
      simp only [decodeNoteDelta, noteDeltaChunks, List.cons_append, List.nil_append,
        List.flatten_cons, List.flatten_nil, List.append_nil, writeString, List.append_assoc]
      rw [decodeNoteDeltaAux_field1 mid h1,
        decodeNoteDeltaAux_field2 t (by omega),
        decodeNoteDeltaAux_field4 mu h2,
        decodeNoteDeltaAux_field5_last mv h3]
      rfl
    | some b =>
      have hb : b.length ≤ MAX_SAFE_INTEGER := h5
      simp only [decodeNoteDelta, noteDeltaChunks, List.cons_append, List.nil_append,
        List.flatten_cons, List.flatten_nil, List.append_nil, writeString, List.append_assoc]
      rw [decodeNoteDeltaAux_field1 mid h1,
        decodeNoteDeltaAux_field2 t (by omega),
        decodeNoteDeltaAux_field3 b (by omega),
        decodeNoteDeltaAux_field4 mu h2,
        decodeNoteDeltaAux_field5_last mv h3]

theorem decodeNoteDeleted_chunks (m : NoteDeleted) (hm : WFNoteDeleted m) :
    decodeNoteDeleted (noteDeletedChunks m).flatten = some m := by
  simp only [decodeNoteDeleted, noteDeletedChunks, List.flatten_cons, List.flatten_nil,
    List.append_assoc]
  rw [decodeNoteDeletedAux_field1 m.id hm, decodeNoteDeletedAux_nil]

theorem decodeNoteEvent_chunks (m : NoteEvent) (hm : WFNoteEvent m) :
    decodeNoteEvent (noteEventChunks m).flatten = some m := by
  obtain ⟨ev⟩ := m
  cases ev with
  | none =>
    simp only [noteEventChunks, List.flatten_nil]
    rw [decodeNoteEvent, decodeNoteEventAux_nil]
  | some c =>
    cases c with
    | created n =>
      have hn : WFNote n := hm
      simp only [decodeNoteEvent, noteEventChunks, List.flatten_cons, List.flatten_nil,
        writeMessage, List.append_assoc]
      rw [decodeNoteEventAux_field1 _ (noteChunks_flatten_length n hn) n
          (decodeNote_chunks n hn),
        decodeNoteEventAux_nil]
    | updated d =>
      have hd : WFNoteDelta d := hm
      simp only [decodeNoteEvent, noteEventChunks, List.flatten_cons, List.flatten_nil,
        writeMessage, List.append_assoc]
      rw [decodeNoteEventAux_field2 _ (noteDeltaChunks_flatten_length d hd) d
          (decodeNoteDelta_chunks d hd),
        decodeNoteEventAux_nil]
    | deleted d =>
      have hd : WFNoteDeleted d := hm
      simp only [decodeNoteEvent, noteEventChunks, List.flatten_cons, List.flatten_nil,
        writeMessage, List.append_assoc]
      rw [decodeNoteEventAux_field3 _ (noteDeletedChunks_flatten_length d hd) d
          (decodeNoteDeleted_chunks d hd),
        decodeNoteEventAux_nil]

/-! Forward compatibility: buffers with injected unknown fields. -/

/-- A chunk that encodes a single unknown field: an out-of-schema field
number (below 2^29 so the tag stays in uint32 range) with a varint or
length-delimited payload. `known` lists the field numbers the decoder
recognizes. -/
def IsUnknownChunk (known : List Nat) (j : List Nat) : Prop :=
  ∃ f u, f < 2 ^ 29 ∧ f ∉ known ∧ UnknownField.WF u ∧
    j = writeTag f u.wireType ++ u.payload

/-- `Interleaved P cs ds` holds when `ds` is `cs` with extra chunks
satisfying `P` inserted at arbitrary positions (order of `cs` preserved). -/
inductive Interleaved (P : List Nat → Prop) :
    List (List Nat) → List (List Nat) → Prop
  | nil : Interleaved P [] []
  | keep (c : List Nat) {cs ds : List (List Nat)} :
      Interleaved P cs ds → Interleaved P (c :: cs) (c :: ds)
  | junk (j : List Nat) {cs ds : List (List Nat)} :
      P j → Interleaved P cs ds → Interleaved P cs (j :: ds)

/-- Running a decoder loop over a junk-interleaved chunk list gives the same
result as over the original chunks, provided the loop skips junk chunks and
steps through original chunks. -/
theorem interleaved_loop_eq {σ : Type} (loop : List Nat → σ → Option σ)
    (P : List Nat → Prop)
    (hP : ∀ j, P j → ∀ rest s, loop (j ++ rest) s = loop rest s)
    {cs ds : List (List Nat)} (h : Interleaved P cs ds) :
    (∀ c ∈ cs, ∃ g : σ → σ, ∀ rest s, loop (c ++ rest) s = loop rest (g s)) →
    ∀ s, loop ds.flatten s = loop cs.flatten s := by
  induction h with
  | nil =>
    intro _ s
    rfl
  | keep c h ih =>
    intro hcs s
    obtain ⟨g, hg⟩ := hcs c (by simp)
    have hrest : ∀ x ∈ _, _ := fun x hx => hcs x (List.mem_cons_of_mem c hx)
    simp only [List.flatten_cons]
    rw [hg, hg, ih hrest (g s)]
  | junk j hj h ih =>
    intro hcs s
    simp only [List.flatten_cons]
    rw [hP j hj, ih hcs s]

/-! Each decoder loop skips an unknown-field chunk unchanged. -/

theorem decodeNoteAux_skipUnknown : ∀ j, IsUnknownChunk [1, 2, 3, 4, 5, 6] j →
    ∀ (rest : List Nat) (s : Note), decodeNoteAux (j ++ rest) s = decodeNoteAux rest s := by
  intro j hj rest s
  obtain ⟨f, u, hf, hmem, hu, rfl⟩ := hj
  simp only [List.append_assoc]
  exact decodeNoteAux_junk f hf u hu
    (by simp at hmem; omega)
    (by simp at hmem; omega)
    (by simp at hmem; omega)
    (by simp at hmem; omega)
    (by simp at hmem; omega)
    (by simp at hmem; omega)
    rest s

theorem decodeCreateNoteRequestAux_skipUnknown : ∀ j, IsUnknownChunk [1, 2] j →
    ∀ (rest : List Nat) (s : CreateNoteRequest), decodeCreateNoteRequestAux (j ++ rest) s = decodeCreateNoteRequestAux rest s := by
  intro j hj rest s
  obtain ⟨f, u, hf, hmem, hu, rfl⟩ := hj
  simp only [List.append_assoc]
  exact decodeCreateNoteRequestAux_junk f hf u hu
    (by simp at hmem; omega)
    (by simp at hmem; omega)
    rest s

theorem decodeCreateNoteResponseAux_skipUnknown : ∀ j, IsUnknownChunk [1] j →
    ∀ (rest : List Nat) (s : CreateNoteResponse), decodeCreateNoteResponseAux (j ++ rest) s = decodeCreateNoteResponseAux rest s := by
  intro j hj rest s
  obtain ⟨f, u, hf, hmem, hu, rfl⟩ := hj
  simp only [List.append_assoc]
  exact decodeCreateNoteResponseAux_junk f hf u hu
    (by simp at hmem; omega)
    rest s

theorem decodeGetNoteResponseAux_skipUnknown : ∀ j, IsUnknownChunk [1] j →
    ∀ (rest : List Nat) (s : GetNoteResponse), decodeGetNoteResponseAux (j ++ rest) s = decodeGetNoteResponseAux rest s := by
  intro j hj rest s
  obtain ⟨f, u, hf, hmem, hu, rfl⟩ := hj
  simp only [List.append_assoc]
  exact decodeGetNoteResponseAux_junk f hf u hu
    (by simp at hmem; omega)
    rest s

theorem decodeListNotesResponseAux_skipUnknown : ∀ j, IsUnknownChunk [1] j →
    ∀ (rest : List Nat) (s : ListNotesResponse), decodeListNotesResponseAux (j ++ rest) s = decodeListNotesResponseAux rest s := by
  intro j hj rest s
  obtain ⟨f, u, hf, hmem, hu, rfl⟩ := hj
  simp only [List.append_assoc]
  exact decodeListNotesResponseAux_junk f hf u hu
    (by simp at hmem; omega)
    rest s

theorem decodeUpdateNoteRequestAux_skipUnknown : ∀ j, IsUnknownChunk [1, 2] j →
    ∀ (rest : List Nat) (s : UpdateNoteRequest), decodeUpdateNoteRequestAux (j ++ rest) s = decodeUpdateNoteRequestAux rest s := by
  intro j hj rest s
  obtain ⟨f, u, hf, hmem, hu, rfl⟩ := hj
  simp only [List.append_assoc]
  exact decodeUpdateNoteRequestAux_junk f hf u hu
    (by simp at hmem; omega)
    (by simp at hmem; omega)
    rest s

theorem decodeUpdateNoteResponseAux_skipUnknown : ∀ j, IsUnknownChunk [1] j →
    ∀ (rest : List Nat) (s : UpdateNoteResponse), decodeUpdateNoteResponseAux (j ++ rest) s = decodeUpdateNoteResponseAux rest s := by
  intro j hj rest s
  obtain ⟨f, u, hf, hmem, hu, rfl⟩ := hj
  simp only [List.append_assoc]
  exact decodeUpdateNoteResponseAux_junk f hf u hu
    (by simp at hmem; omega)
    rest s

theorem decodeDeleteNoteResponseAux_skipUnknown : ∀ j, IsUnknownChunk [1] j →
    ∀ (rest : List Nat) (s : DeleteNoteResponse), decodeDeleteNoteResponseAux (j ++ rest) s = decodeDeleteNoteResponseAux rest s := by
  intro j hj rest s
  obtain ⟨f, u, hf, hmem, hu, rfl⟩ := hj
  simp only [List.append_assoc]
  exact decodeDeleteNoteResponseAux_junk f hf u hu
    (by simp at hmem; omega)
    rest s

theorem decodeNoteDeltaAux_skipUnknown : ∀ j, IsUnknownChunk [1, 2, 3, 4, 5] j →
    ∀ (rest : List Nat) (s : NoteDelta), decodeNoteDeltaAux (j ++ rest) s = decodeNoteDeltaAux rest s := by
  intro j hj rest s
  obtain ⟨f, u, hf, hmem, hu, rfl⟩ := hj
  simp only [List.append_assoc]
  exact decodeNoteDeltaAux_junk f hf u hu
    (by simp at hmem; omega)
    (by simp at hmem; omega)
    (by simp at hmem; omega)
    (by simp at hmem; omega)
    (by simp at hmem; omega)
    rest s

theorem decodeNoteDeletedAux_skipUnknown : ∀ j, IsUnknownChunk [1] j →
    ∀ (rest : List Nat) (s : NoteDeleted), decodeNoteDeletedAux (j ++ rest) s = decodeNoteDeletedAux rest s := by
  intro j hj rest s
  obtain ⟨f, u, hf, hmem, hu, rfl⟩ := hj
  simp only [List.append_assoc]
  exact decodeNoteDeletedAux_junk f hf u hu
    (by simp at hmem; omega)
    rest s

theorem decodeNoteEventAux_skipUnknown : ∀ j, IsUnknownChunk [1, 2, 3] j →
    ∀ (rest : List Nat) (s : NoteEvent), decodeNoteEventAux (j ++ rest) s = decodeNoteEventAux rest s := by
  intro j hj rest s
  obtain ⟨f, u, hf, hmem, hu, rfl⟩ := hj
  simp only [List.append_assoc]
  exact decodeNoteEventAux_junk f hf u hu
    (by simp at hmem; omega)
    (by simp at hmem; omega)
    (by simp at hmem; omega)
    rest s

/-! Every chunk an encoder writes steps the corresponding decoder loop. -/

theorem noteChunks_steps (m : Note) (hm : WFNote m) :
    ∀ c ∈ noteChunks m, ∃ g : Note → Note,
      ∀ rest s, decodeNoteAux (c ++ rest) s = decodeNoteAux rest (g s) := by
  obtain ⟨h1, h2, h3, h4, h5, h6⟩ := hm
  have hM : MAX_SAFE_INTEGER < 2 ^ 63 := by norm_num [MAX_SAFE_INTEGER]
  intro c hc
  simp only [noteChunks, List.mem_cons, List.not_mem_nil, or_false] at hc
  rcases hc with rfl | rfl | rfl | rfl | rfl | rfl
  · exact ⟨fun s => { s with id := m.id }, fun rest s => by
      simp only [List.append_assoc]
      rw [decodeNoteAux_field1 m.id h1]⟩
  · exact ⟨fun s => { s with title := m.title }, fun rest s => by
      simp only [writeString, List.append_assoc]
      rw [decodeNoteAux_field2 m.title (by omega)]⟩
  · exact ⟨fun s => { s with body := m.body }, fun rest s => by
      simp only [writeString, List.append_assoc]
      rw [decodeNoteAux_field3 m.body (by omega)]⟩
  · exact ⟨fun s => { s with createdAtUnixMs := m.createdAtUnixMs }, fun rest s => by
      simp only [List.append_assoc]
      rw [decodeNoteAux_field4 m.createdAtUnixMs h2]⟩
  · exact ⟨fun s => { s with updatedAtUnixMs := m.updatedAtUnixMs }, fun rest s => by
      simp only [List.append_assoc]
      rw [decodeNoteAux_field5 m.updatedAtUnixMs h3]⟩
  · exact ⟨fun s => { s with version := m.version }, fun rest s => by
      simp only [List.append_assoc]
      rw [decodeNoteAux_field6 m.version h4]⟩

theorem createNoteRequestChunks_steps (m : CreateNoteRequest) (hm : WFCreateNoteRequest m) :
    ∀ c ∈ createNoteRequestChunks m, ∃ g : CreateNoteRequest → CreateNoteRequest,
      ∀ rest s, decodeCreateNoteRequestAux (c ++ rest) s
        = decodeCreateNoteRequestAux rest (g s) := by
  obtain ⟨h1, h2⟩ := hm
  have hM : MAX_SAFE_INTEGER < 2 ^ 63 := by norm_num [MAX_SAFE_INTEGER]
  intro c hc
  simp only [createNoteRequestChunks, List.mem_cons, List.not_mem_nil, or_false] at hc
  rcases hc with rfl | rfl
  · exact ⟨fun s => { s with title := m.title }, fun rest s => by
      simp only [writeString, List.append_assoc]
      rw [decodeCreateNoteRequestAux_field1 m.title (by omega)]⟩
  · exact ⟨fun s => { s with body := m.body }, fun rest s => by
      simp only [writeString, List.append_assoc]
      rw [decodeCreateNoteRequestAux_field2 m.body (by omega)]⟩

theorem createNoteResponseChunks_steps (m : CreateNoteResponse) (hm : WFCreateNoteResponse m) :
    ∀ c ∈ createNoteResponseChunks m, ∃ g : CreateNoteResponse → CreateNoteResponse,
      ∀ rest s, decodeCreateNoteResponseAux (c ++ rest) s
        = decodeCreateNoteResponseAux rest (g s) := by
  intro c hc
  rcases hnote : m.note with _ | n
  · simp [createNoteResponseChunks, hnote] at hc
  · have hn : WFNote n := by
      have := hm
      rw [WFCreateNoteResponse, hnote] at this
      exact this
    simp only [createNoteResponseChunks, hnote, List.mem_cons, List.not_mem_nil,
      or_false] at hc
    subst hc
    exact ⟨fun s => { s with note := some n }, fun rest s => by
      rw [writeMessage]
      simp only [List.append_assoc]
      rw [decodeCreateNoteResponseAux_field1 _ (noteChunks_flatten_length n hn) n
        (decodeNote_chunks n hn)]⟩

theorem getNoteResponseChunks_steps (m : GetNoteResponse) (hm : WFGetNoteResponse m) :
    ∀ c ∈ getNoteResponseChunks m, ∃ g : GetNoteResponse → GetNoteResponse,
      ∀ rest s, decodeGetNoteResponseAux (c ++ rest) s
        = decodeGetNoteResponseAux rest (g s) := by
  intro c hc
  rcases hnote : m.note with _ | n
  · simp [getNoteResponseChunks, hnote] at hc
  · have hn : WFNote n := by
      have := hm
      rw [WFGetNoteResponse, hnote] at this
      exact this
    simp only [getNoteResponseChunks, hnote, List.mem_cons, List.not_mem_nil,
      or_false] at hc
    subst hc
    exact ⟨fun s => { s with note := some n }, fun rest s => by
      rw [writeMessage]
      simp only [List.append_assoc]
      rw [decodeGetNoteResponseAux_field1 _ (noteChunks_flatten_length n hn) n
        (decodeNote_chunks n hn)]⟩

theorem updateNoteResponseChunks_steps (m : UpdateNoteResponse) (hm : WFUpdateNoteResponse m) :
    ∀ c ∈ updateNoteResponseChunks m, ∃ g : UpdateNoteResponse → UpdateNoteResponse,
      ∀ rest s, decodeUpdateNoteResponseAux (c ++ rest) s
        = decodeUpdateNoteResponseAux rest (g s) := by
  intro c hc
  rcases hnote : m.note with _ | n
  · simp [updateNoteResponseChunks, hnote] at hc
  · have hn : WFNote n := by
      have := hm
      rw [WFUpdateNoteResponse, hnote] at this
      exact this
    simp only [updateNoteResponseChunks, hnote, List.mem_cons, List.not_mem_nil,
      or_false] at hc
    subst hc
    exact ⟨fun s => { s with note := some n }, fun rest s => by
      rw [writeMessage]
      simp only [List.append_assoc]
      rw [decodeUpdateNoteResponseAux_field1 _ (noteChunks_flatten_length n hn) n
        (decodeNote_chunks n hn)]⟩

theorem listNotesResponseChunks_steps (m : ListNotesResponse) (hm : WFListNotesResponse m) :
    ∀ c ∈ listNotesResponseChunks m, ∃ g : ListNotesResponse → ListNotesResponse,
      ∀ rest s, decodeListNotesResponseAux (c ++ rest) s
        = decodeListNotesResponseAux rest (g s) := by
  intro c hc
  simp only [listNotesResponseChunks, List.mem_map] at hc
  obtain ⟨n, hmem, rfl⟩ := hc
  have hn := hm n hmem
  exact ⟨fun s => { s with notes := s.notes ++ [n] }, fun rest s => by
    rw [writeMessage]
    simp only [List.append_assoc]
    rw [decodeListNotesResponseAux_field1 _ (noteChunks_flatten_length n hn) n
      (decodeNote_chunks n hn)]⟩

theorem updateNoteRequestChunks_steps (m : UpdateNoteRequest) (hm : WFUpdateNoteRequest m) :
    ∀ c ∈ updateNoteRequestChunks m, ∃ g : UpdateNoteRequest → UpdateNoteRequest,
      ∀ rest s, decodeUpdateNoteRequestAux (c ++ rest) s
        = decodeUpdateNoteRequestAux rest (g s) := by
  obtain ⟨h1, h2⟩ := hm
  have hM : MAX_SAFE_INTEGER < 2 ^ 63 := by norm_num [MAX_SAFE_INTEGER]
  intro c hc
  simp only [updateNoteRequestChunks, List.mem_append] at hc
  rcases hc with hc | hc
  · rcases htitle : m.title with _ | t
    · simp [htitle] at hc
    · rw [htitle] at hc
      simp only [List.mem_cons, List.not_mem_nil, or_false] at hc
      subst hc
      have ht : t.length ≤ MAX_SAFE_INTEGER := by rw [htitle] at h1; exact h1
      exact ⟨fun s => { s with title := some t }, fun rest s => by
        simp only [writeString, List.append_assoc]
        rw [decodeUpdateNoteRequestAux_field1 t (by omega)]⟩
  · rcases hbody : m.body with _ | b
    · simp [hbody] at hc
    · rw [hbody] at hc
      simp only [List.mem_cons, List.not_mem_nil, or_false] at hc
      subst hc
      have hb : b.length ≤ MAX_SAFE_INTEGER := by rw [hbody] at h2; exact h2
      exact ⟨fun s => { s with body := some b }, fun rest s => by
        simp only [writeString, List.append_assoc]
        rw [decodeUpdateNoteRequestAux_field2 b (by omega)]⟩

theorem deleteNoteResponseChunks_steps (m : DeleteNoteResponse) (hm : WFDeleteNoteResponse m) :
    ∀ c ∈ deleteNoteResponseChunks m, ∃ g : DeleteNoteResponse → DeleteNoteResponse,
      ∀ rest s, decodeDeleteNoteResponseAux (c ++ rest) s
        = decodeDeleteNoteResponseAux rest (g s) := by
  intro c hc
  simp only [deleteNoteResponseChunks, List.mem_cons, List.not_mem_nil, or_false] at hc
  subst hc
  exact ⟨fun s => { s with id := m.id }, fun rest s => by
    simp only [List.append_assoc]
    rw [decodeDeleteNoteResponseAux_field1 m.id hm]⟩

theorem noteDeltaChunks_steps (m : NoteDelta) (hm : WFNoteDelta m) :
    ∀ c ∈ noteDeltaChunks m, ∃ g : NoteDelta → NoteDelta,
      ∀ rest s, decodeNoteDeltaAux (c ++ rest) s = decodeNoteDeltaAux rest (g s) := by
  obtain ⟨h1, h2, h3, h4, h5⟩ := hm
  have hM : MAX_SAFE_INTEGER < 2 ^ 63 := by norm_num [MAX_SAFE_INTEGER]
  intro c hc
  simp only [noteDeltaChunks, List.mem_append, List.mem_cons, List.not_mem_nil,
    or_false] at hc
  rcases hc with ((hc | hc) | hc) | (hc | hc)
  · subst hc
    exact ⟨fun s => { s with id := m.id }, fun rest s => by
      simp only [List.append_assoc]
      rw [decodeNoteDeltaAux_field1 m.id h1]⟩
  · rcases htitle : m.title with _ | t
    · simp [htitle] at hc
    · rw [htitle] at hc
      simp only [List.mem_cons, List.not_mem_nil, or_false] at hc
      subst hc
      have ht : t.length ≤ MAX_SAFE_INTEGER := by rw [htitle] at h4; exact h4
      exact ⟨fun s => { s with title := some t }, fun rest s => by
        simp only [writeString, List.append_assoc]
        rw [decodeNoteDeltaAux_field2 t (by omega)]⟩
  · rcases hbody : m.body with _ | b
    · simp [hbody] at hc
    · rw [hbody] at hc
      simp only [List.mem_cons, List.not_mem_nil, or_false] at hc
      subst hc
      have hb : b.length ≤ MAX_SAFE_INTEGER := by rw [hbody] at h5; exact h5
      exact ⟨fun s => { s with body := some b }, fun rest s => by
        simp only [writeString, List.append_assoc]
        rw [decodeNoteDeltaAux_field3 b (by omega)]⟩
  · subst hc
    exact ⟨fun s => { s with updatedAtUnixMs := m.updatedAtUnixMs }, fun rest s => by
      simp only [List.append_assoc]
      rw [decodeNoteDeltaAux_field4 m.updatedAtUnixMs h2]⟩
  · subst hc
    exact ⟨fun s => { s with version := m.version }, fun rest s => by
      simp only [List.append_assoc]
      rw [decodeNoteDeltaAux_field5 m.version h3]⟩

theorem noteDeletedChunks_steps (m : NoteDeleted) (hm : WFNoteDeleted m) :
    ∀ c ∈ noteDeletedChunks m, ∃ g : NoteDeleted → NoteDeleted,
      ∀ rest s, decodeNoteDeletedAux (c ++ rest) s = decodeNoteDeletedAux rest (g s) := by
  intro c hc
  simp only [noteDeletedChunks, List.mem_cons, List.not_mem_nil, or_false] at hc
  subst hc
  exact ⟨fun s => { s with id := m.id }, fun rest s => by
    simp only [List.append_assoc]
    rw [decodeNoteDeletedAux_field1 m.id hm]⟩

theorem noteEventChunks_steps (m : NoteEvent) (hm : WFNoteEvent m) :
    ∀ c ∈ noteEventChunks m, ∃ g : NoteEvent → NoteEvent,
      ∀ rest s, decodeNoteEventAux (c ++ rest) s = decodeNoteEventAux rest (g s) := by
  intro c hc
  rcases hev : m.event with _ | ev
  · simp [noteEventChunks, hev] at hc
  · cases ev with
    | created n =>
      have hn : WFNote n := by
        have := hm
        rw [WFNoteEvent, hev] at this
        exact this
      simp only [noteEventChunks, hev, List.mem_cons, List.not_mem_nil, or_false] at hc
      subst hc
      exact ⟨fun _ => { event := some (.created n) }, fun rest s => by
        rw [writeMessage]
        simp only [List.append_assoc]
        rw [decodeNoteEventAux_field1 _ (noteChunks_flatten_length n hn) n
          (decodeNote_chunks n hn)]⟩
    | updated d =>
      have hd : WFNoteDelta d := by
        have := hm
        rw [WFNoteEvent, hev] at this
        exact this
      simp only [noteEventChunks, hev, List.mem_cons, List.not_mem_nil, or_false] at hc
      subst hc
      exact ⟨fun _ => { event := some (.updated d) }, fun rest s => by
        rw [writeMessage]
        simp only [List.append_assoc]
        rw [decodeNoteEventAux_field2 _ (noteDeltaChunks_flatten_length d hd) d
          (decodeNoteDelta_chunks d hd)]⟩
    | deleted d =>
      have hd : WFNoteDeleted d := by
        have := hm
        rw [WFNoteEvent, hev] at this
        exact this
      simp only [noteEventChunks, hev, List.mem_cons, List.not_mem_nil, or_false] at hc
      subst hc
      exact ⟨fun _ => { event := some (.deleted d) }, fun rest s => by
        rw [writeMessage]
        simp only [List.append_assoc]
        rw [decodeNoteEventAux_field3 _ (noteDeletedChunks_flatten_length d hd) d
          (decodeNoteDeleted_chunks d hd)]⟩

/-! The tagged-union Event: decoding a sequence of member fields keeps the
last one (each member assignment replaces the whole message). -/

/-- The field chunk one NoteEvent member writes. -/
def memberChunk : NoteEventCase → List Nat
  | .created n => writeMessage 1 (noteChunks n).flatten
  | .updated d => writeMessage 2 (noteDeltaChunks d).flatten
  | .deleted d => writeMessage 3 (noteDeletedChunks d).flatten

/-- Well-formedness of one NoteEvent member. -/
def WFEventCase : NoteEventCase → Prop
  | .created n => WFNote n
  | .updated d => WFNoteDelta d
  | .deleted d => WFNoteDeleted d

theorem decodeNoteEventAux_member (c : NoteEventCase) (hc : WFEventCase c)
    (rest : List Nat) (s : NoteEvent) :
    decodeNoteEventAux (memberChunk c ++ rest) s
      = decodeNoteEventAux rest { event := some c } := by
  cases c with
  | created n =>
    have hn : WFNote n := hc
    rw [memberChunk, writeMessage]
    simp only [List.append_assoc]
    rw [decodeNoteEventAux_field1 _ (noteChunks_flatten_length n hn) n
      (decodeNote_chunks n hn)]
  | updated d =>
    have hd : WFNoteDelta d := hc
    rw [memberChunk, writeMessage]
    simp only [List.append_assoc]
    rw [decodeNoteEventAux_field2 _ (noteDeltaChunks_flatten_length d hd) d
      (decodeNoteDelta_chunks d hd)]
  | deleted d =>
    have hd : WFNoteDeleted d := hc
    rw [memberChunk, writeMessage]
    simp only [List.append_assoc]
    rw [decodeNoteEventAux_field3 _ (noteDeletedChunks_flatten_length d hd) d
      (decodeNoteDeleted_chunks d hd)]

theorem decodeNoteEventAux_members : ∀ (es : List NoteEventCase),
    (∀ e ∈ es, WFEventCase e) → ∀ s : NoteEvent,
    decodeNoteEventAux (List.flatten (es.map memberChunk)) s
      = some { event := es.foldl (fun _ e => some e) s.event } := by
  intro es
  induction es with
  | nil =>
    intro _ s
    simp only [List.map_nil, List.flatten_nil, List.foldl_nil]
    rw [decodeNoteEventAux_nil]
  | cons e es ih =>
    intro h s
    simp only [List.map_cons, List.flatten_cons, List.foldl_cons]
    rw [decodeNoteEventAux_member e (h e (by simp)),
      ih (fun x hx => h x (by simp [hx]))]

theorem foldl_keepLast {α : Type} : ∀ (es : List α) (a : Option α),
    es.foldl (fun _ e => some e) a
      = match es.getLast? with
        | none => a
        | some e => some e := by
  intro es
  induction es with
  | nil => intro a; rfl
  | cons e es ih =>
    intro a
    rw [List.foldl_cons, ih (some e)]
    cases hlast : es.getLast? with
    | none =>
      have hes : es = [] := by
        cases es with
        | nil => rfl
        | cons x xs => simp at hlast
      subst hes
      rfl
    | some x =>
      cases es with
      | nil => simp at hlast
      | cons y ys =>
        rw [List.getLast?_cons_cons, hlast]

/-! The cache reconciler (sortNotes / upsertNote / applyDelta / removeNote
from the svelte-query notes module). The reconciler operates on the same
Note record as the codec; ids are compared with strict equality. -/

/-- The order sortNotes produces: the JS comparator returns a non-positive
value on (a, b), i.e. a may precede b, exactly when b.updatedAtUnixMs is
smaller, or the timestamps tie and b.id ≤ a.id (updatedAtUnixMs descending,
tie-broken by id descending). -/
def noteLE (a b : Note) : Prop :=
  b.updatedAtUnixMs < a.updatedAtUnixMs ∨
    (a.updatedAtUnixMs = b.updatedAtUnixMs ∧ b.id ≤ a.id)

/-- Strict version of noteLE: distinct (updatedAtUnixMs, id) keys. -/
def noteLT (a b : Note) : Prop :=
  b.updatedAtUnixMs < a.updatedAtUnixMs ∨
    (a.updatedAtUnixMs = b.updatedAtUnixMs ∧ b.id < a.id)

instance : DecidableRel noteLE := fun a b => by
  unfold noteLE
  infer_instance

instance : DecidableRel noteLT := fun a b => by
  unfold noteLT
  infer_instance

instance : IsTotal Note noteLE :=
  ⟨by intro a b; unfold noteLE; omega⟩

instance : IsTrans Note noteLE :=
  ⟨by intro a b c; unfold noteLE; omega⟩

instance : IsTrans Note noteLT :=
  ⟨by intro a b c; unfold noteLT; omega⟩

instance : IsAntisymm Note noteLT :=
  ⟨by intro a b h1 h2; exfalso; unfold noteLT at h1 h2; omega⟩

/-- Function sortNotes: `[...items].sort(comparator)` — a stable sort of a
copy of the list by the comparator order (ECMAScript sort is stable;
insertion sort realizes it for this total comparator). -/
def sortNotes (items : List Note) : List Note :=
  List.insertionSort noteLE items

/-- Function upsertNote: replace the first note with the same id, or append
if no note has the id; re-sort either way. -/
def upsertNote (notes : List Note) (note : Note) : List Note :=
  match notes.findIdx? (fun candidate => candidate.id == note.id) with
  | none => sortNotes (notes ++ [note])
  | some index => sortNotes (notes.set index note)

/-- Function applyDelta: no-op when delta.id is absent; otherwise merge the
delta over the existing note (absent optional fields keep the existing
values, updatedAtUnixMs and version are taken from the delta
unconditionally) and upsert the result. -/
def applyDelta (notes : List Note) (delta : NoteDelta) : List Note :=
  match notes.find? (fun candidate => candidate.id == delta.id) with
  | none => notes
  | some existing =>
    upsertNote notes
      { existing with
        title := delta.title.getD existing.title
        body := delta.body.getD existing.body
        updatedAtUnixMs := delta.updatedAtUnixMs
        version := delta.version }

/-- Function removeNote: filter out the note with the given id. -/
def removeNote (notes : List Note) (noteId : Nat) : List Note :=
  notes.filter (fun note => note.id != noteId)

/-! Supporting lemmas about the reconciler. -/

theorem sortNotes_sorted (items : List Note) : List.Sorted noteLE (sortNotes items) :=
  List.sorted_insertionSort noteLE items

theorem sortNotes_perm (items : List Note) : (sortNotes items).Perm items :=
  List.perm_insertionSort noteLE items

theorem sorted_lt_of_le {l : List Note} (hs : List.Sorted noteLE l)
    (hid : (l.map Note.id).Nodup) : List.Sorted noteLT l := by
  have hpair : List.Pairwise (fun a b : Note => a.id ≠ b.id) l := by
    rw [List.Nodup, List.pairwise_map] at hid
    exact hid
  have := hs.and hpair
  exact this.imp (by
    intro a b hab
    obtain ⟨hle, hne⟩ := hab
    unfold noteLE at hle
    unfold noteLT
    omega)

/-- Two noteLE-sorted permutations of a duplicate-id-free list are equal. -/
theorem sorted_unique {l₁ l₂ : List Note} (hperm : l₁.Perm l₂)
    (hs₁ : List.Sorted noteLE l₁) (hs₂ : List.Sorted noteLE l₂)
    (hid : (l₁.map Note.id).Nodup) : l₁ = l₂ := by
  have hid₂ : (l₂.map Note.id).Nodup := ((hperm.map Note.id).nodup hid)
  exact List.eq_of_perm_of_sorted hperm (sorted_lt_of_le hs₁ hid)
    (sorted_lt_of_le hs₂ hid₂)

theorem set_getElem_self {α : Type} : ∀ (l : List α) (i : Nat) (a : α),
    l[i]? = some a → l.set i a = l := by
  intro l
  induction l with
  | nil => intro i a h; cases h
  | cons x xs ih =>
    intro i a h
    cases i with
    | zero =>
      simp only [List.getElem?_cons_zero, Option.some.injEq] at h
      subst h
      rfl
    | succ n =>
      simp only [List.getElem?_cons_succ] at h
      simp [List.set, ih n a h]

theorem upsertNote_not_found {notes : List Note} {note : Note}
    (h : ∀ c ∈ notes, c.id ≠ note.id) :
    upsertNote notes note = sortNotes (notes ++ [note]) := by
  unfold upsertNote
  have hidx : notes.findIdx? (fun candidate => candidate.id == note.id) = none := by
    rw [List.findIdx?_eq_none_iff]
    intro x hx
    simp [h x hx]
  rw [hidx]

/-- upsertNote keeps the multiset of ids intact when the id is present, and
adds the new id when absent; either way duplicate-freeness of ids is
preserved, and the upserted id is present exactly once afterwards. -/
theorem upsertNote_map_id {notes : List Note} {note : Note}
    (hid : (notes.map Note.id).Nodup) :
    ((upsertNote notes note).map Note.id).Nodup ∧
      List.count note.id ((upsertNote notes note).map Note.id) = 1 := by
  unfold upsertNote
  cases hidx : notes.findIdx? (fun candidate => candidate.id == note.id) with
  | none =>
    have hnotin : note.id ∉ notes.map Note.id := by
      rw [List.findIdx?_eq_none_iff] at hidx
      intro hmem
      rw [List.mem_map] at hmem
      obtain ⟨c, hc, hcid⟩ := hmem
      have := hidx c hc
      simp [hcid] at this
    have hperm : ((sortNotes (notes ++ [note])).map Note.id).Perm
        ((notes ++ [note]).map Note.id) := (sortNotes_perm _).map _
    have hnodup : ((notes ++ [note]).map Note.id).Nodup := by
      simp only [List.map_append, List.map_cons, List.map_nil]
      rw [List.nodup_append]
      refine ⟨hid, List.nodup_singleton _, ?_⟩
      intro a ha hb
      simp only [List.mem_singleton] at hb
      subst hb
      exact hnotin ha
    constructor
    · exact hperm.symm.nodup hnodup
    · have hmem : note.id ∈ (sortNotes (notes ++ [note])).map Note.id := by
        rw [hperm.mem_iff]
        simp
      exact List.count_eq_one_of_mem (hperm.symm.nodup hnodup) hmem
  | some i =>
    rw [List.findIdx?_eq_some_iff_getElem] at hidx
    obtain ⟨hlt, hp, _⟩ := hidx
    have hgetid : (notes.map Note.id)[i]? = some note.id := by
      rw [List.getElem?_map]
      rw [List.getElem?_eq_getElem hlt]
      simp only [Option.map_some']
      simp only [beq_iff_eq] at hp
      rw [hp]
    have hset : (notes.set i note).map Note.id = notes.map Note.id := by
      rw [List.map_set]
      exact set_getElem_self _ _ _ hgetid
    have hperm : ((sortNotes (notes.set i note)).map Note.id).Perm
        ((notes.set i note).map Note.id) := (sortNotes_perm _).map _
    rw [hset] at hperm
    constructor
    · exact hperm.symm.nodup hid
    · have hmem : note.id ∈ (sortNotes (notes.set i note)).map Note.id := by
        rw [hperm.mem_iff]
        exact List.getElem?_mem hgetid
      exact List.count_eq_one_of_mem (hperm.symm.nodup hid) hmem

/-- With duplicate-free ids, find? by id returns exactly the member that
carries the id. -/
theorem find?_eq_of_nodup : ∀ {notes : List Note} {i : Nat} {e : Note},
    (notes.map Note.id).Nodup → e ∈ notes → e.id = i →
    notes.find? (fun c => c.id == i) = some e := by
  intro notes
  induction notes with
  | nil =>
    intro i e _ h
    cases h
  | cons x xs ih =>
    intro i e hnd hmem hid
    simp only [List.map_cons, List.nodup_cons] at hnd
    obtain ⟨hxnotin, hnd'⟩ := hnd
    rcases List.mem_cons.mp hmem with rfl | hmem'
    · simp [List.find?_cons, hid]
    · have hxne : x.id ≠ i := by
        intro hx
        apply hxnotin
        rw [hx, ← hid]
        exact List.mem_map_of_mem Note.id hmem'
      rw [List.find?_cons]
      have : (x.id == i) = false := by simp [hxne]
      rw [this]
      exact ih hnd' hmem' hid

/-- Folding upsertNote over fresh notes produces a sorted permutation of
the accumulated collection. -/
theorem foldl_upsert_sorted : ∀ (l : List Note) (acc : List Note),
    List.Sorted noteLE acc → ((acc ++ l).map Note.id).Nodup →
    List.Sorted noteLE (List.foldl upsertNote acc l) ∧
      (List.foldl upsertNote acc l).Perm (acc ++ l) := by
  intro l
  induction l with
  | nil =>
    intro acc hs _
    simp only [List.foldl_nil, List.append_nil]
    exact ⟨hs, List.Perm.refl acc⟩
  | cons n ns ih =>
    intro acc hs hn
    rw [List.foldl_cons]
    have hnotin : ∀ c ∈ acc, c.id ≠ n.id := by
      intro c hc hceq
      rw [List.map_append, List.nodup_append] at hn
      obtain ⟨_, _, hdisj⟩ := hn
      exact hdisj (List.mem_map_of_mem Note.id hc)
        (by rw [hceq]; simp) 
    rw [upsertNote_not_found hnotin]
    have hperm1 : (sortNotes (acc ++ [n])).Perm (acc ++ [n]) := sortNotes_perm _
    have heq : (acc ++ [n]) ++ ns = acc ++ n :: ns := by simp
    have hpermapp : (sortNotes (acc ++ [n]) ++ ns).Perm (acc ++ n :: ns) := by
      have hstep := hperm1.append_right ns
      rw [heq] at hstep
      exact hstep
    have hn' : ((sortNotes (acc ++ [n]) ++ ns).map Note.id).Nodup :=
      ((hpermapp.map Note.id).symm).nodup hn
    obtain ⟨hs2, hp2⟩ := ih (sortNotes (acc ++ [n])) (sortNotes_sorted _) hn'
    exact ⟨hs2, hp2.trans hpermapp⟩

/-! Helpers for truncation failures: stripping the final byte of an encoded
message leaves a varint with only continuation bytes, which the reader
rejects at end of input. -/

theorem readVarintAux_all_continuation : ∀ (l : List Nat) (s a : Nat),
    (∀ b ∈ l, 0x80 ≤ b % 0x100) → readVarintAux l s a = none := by
  intro l
  induction l with
  | nil => intro s a _; rfl
  | cons b rest ih =>
    intro s a h
    have hb := h b (by simp)
    have hblt : ¬ b % 0x100 < 0x80 := by omega
    simp only [readVarintAux, hblt, if_false]
    by_cases hs : s + 7 > 63
    · rw [if_pos hs]
    · rw [if_neg hs]
      exact ih _ _ fun x hx => h x (by simp [hx])

theorem writeVarint_dropLast_continuation : ∀ (v : Nat),
    ∀ b ∈ (writeVarint v).dropLast, 0x80 ≤ b % 0x100 := by
  intro v
  induction v using Nat.strong_induction_on with
  | _ v ih =>
    intro b hb
    rw [writeVarint] at hb
    by_cases h : v < 0x80
    · rw [dif_pos h] at hb
      simp at hb
    · rw [dif_neg h] at hb
      have hne : writeVarint (v / 0x80) ≠ [] := writeVarint_ne_nil _
      rw [List.dropLast_cons_of_ne_nil hne] at hb
      rcases List.mem_cons.mp hb with rfl | hb'
      · omega
      · exact ih (v / 0x80) (by omega) b hb'

theorem readInt64_dropLast_varint (v : Nat) :
    readInt64 ((writeVarint v).dropLast) = none := by
  unfold readInt64 readVarint
  rw [readVarintAux_all_continuation _ 0 0 (writeVarint_dropLast_continuation v)]

theorem decodeNoteAux_field6_truncated (v : Nat) (m : Note) :
    decodeNoteAux (writeTag 6 0 ++ (writeVarint v).dropLast) m = none := by
  have hne : (writeTag 6 0 ++ (writeVarint v).dropLast).isEmpty = false := by
    rw [List.isEmpty_eq_false]
    exact List.append_ne_nil_of_left_ne_nil (writeTag_ne_nil 6 0) _
  have ht := readTag_writeTag 6 0 (by norm_num) (by norm_num) ((writeVarint v).dropLast)
  have hi := readInt64_dropLast_varint v
  rw [decodeNoteAux]
  simp only [hne, Bool.false_eq_true, if_false]
  split
  next heq => rfl
  next fno2 wt2 rest2 heq =>
    rw [ht] at heq
    simp only [Option.some.injEq, Prod.mk.injEq] at heq
    obtain ⟨h1, h2, h3⟩ := heq
    subst h1
    subst h2
    subst h3
    rw [if_neg (by norm_num), if_neg (by norm_num), if_neg (by norm_num),
      if_neg (by norm_num), if_neg (by norm_num), if_pos rfl]
    split
    next heq => rfl
    next v2 rest2 heq => rw [hi] at heq; cases heq

theorem decodeNote_encode_dropLast (m : Note) (hm : WFNote m) :
    decodeNote ((noteChunks m).flatten.dropLast) = none := by
  obtain ⟨h1, h2, h3, h4, h5, h6⟩ := hm
  have hM : MAX_SAFE_INTEGER < 2 ^ 63 := by norm_num [MAX_SAFE_INTEGER]
  simp only [decodeNote, noteChunks, List.flatten_cons, List.flatten_nil, writeString,
    List.append_assoc, List.append_nil]
  simp only [List.dropLast_append_of_ne_nil, ne_eq, List.append_eq_nil,
    writeVarint_ne_nil, and_false, false_and, not_false_eq_true]
  rw [decodeNoteAux_field1 m.id h1,
    decodeNoteAux_field2 m.title (by omega),
    decodeNoteAux_field3 m.body (by omega),
    decodeNoteAux_field4 m.createdAtUnixMs h2,
    decodeNoteAux_field5 m.updatedAtUnixMs h3]
  exact decodeNoteAux_field6_truncated m.version _

/-! Decidability of the well-formedness predicates (used to check concrete
messages). -/

instance : DecidablePred WFNote := fun m => by
  unfold WFNote
  infer_instance

instance : DecidablePred WFCreateNoteRequest := fun m => by
  unfold WFCreateNoteRequest
  infer_instance

instance : DecidablePred WFCreateNoteResponse := fun m => by
  unfold WFCreateNoteResponse
  cases m.note with
  | none => exact .isTrue trivial
  | some n => exact inferInstanceAs (Decidable (WFNote n))

instance : DecidablePred WFGetNoteResponse := fun m => by
  unfold WFGetNoteResponse
  cases m.note with
  | none => exact .isTrue trivial
  | some n => exact inferInstanceAs (Decidable (WFNote n))

instance : DecidablePred WFUpdateNoteResponse := fun m => by
  unfold WFUpdateNoteResponse
  cases m.note with
  | none => exact .isTrue trivial
  | some n => exact inferInstanceAs (Decidable (WFNote n))

instance : DecidablePred WFListNotesResponse := fun m => by
  unfold WFListNotesResponse
  infer_instance

instance : DecidablePred WFUpdateNoteRequest := fun m => by
  unfold WFUpdateNoteRequest
  cases m.title <;> cases m.body <;> infer_instance

instance : DecidablePred WFDeleteNoteResponse := fun m => by
  unfold WFDeleteNoteResponse
  infer_instance

instance : DecidablePred WFNoteDelta := fun m => by
  unfold WFNoteDelta
  cases m.title <;> cases m.body <;> infer_instance

instance : DecidablePred WFNoteDeleted := fun m => by
  unfold WFNoteDeleted
  infer_instance

instance : DecidablePred WFEventCase := fun c => by
  cases c with
  | created n => exact inferInstanceAs (Decidable (WFNote n))
  | updated d => exact inferInstanceAs (Decidable (WFNoteDelta d))
  | deleted d => exact inferInstanceAs (Decidable (WFNoteDeleted d))

instance : DecidablePred WFNoteEvent := fun m => by
  unfold WFNoteEvent
  cases m.event with
  | none => exact .isTrue trivial
  | some c =>
    cases c with
    | created n => exact inferInstanceAs (Decidable (WFNote n))
    | updated d => exact inferInstanceAs (Decidable (WFNoteDelta d))
    | deleted d => exact inferInstanceAs (Decidable (WFNoteDeleted d))

/-! The claims. -/

/-- C1: the claim states that applying a delta whose version is not strictly
greater than the cached version leaves the entity unchanged. The code
violates this: applyDelta overwrites title/body/updatedAtUnixMs/version
unconditionally, so a stale delta (version 2 against cached version 5)
rewrites the cached entity. This theorem evaluates the code at that failing
input. -/
theorem C1_applyDelta_applies_stale_version :
    applyDelta
        [{ id := 1, title := [65], body := [66], createdAtUnixMs := 0,
           updatedAtUnixMs := 5, version := 5 }]
        { id := 1, title := some [83], body := none, updatedAtUnixMs := 2, version := 2 }
      = [{ id := 1, title := [83], body := [66], createdAtUnixMs := 0,
           updatedAtUnixMs := 2, version := 2 }] ∧
    (2 : Nat) ≤ 5 ∧
    applyDelta
        [{ id := 1, title := [65], body := [66], createdAtUnixMs := 0,
           updatedAtUnixMs := 5, version := 5 }]
        { id := 1, title := some [83], body := none, updatedAtUnixMs := 2, version := 2 }
      ≠ [{ id := 1, title := [65], body := [66], createdAtUnixMs := 0,
           updatedAtUnixMs := 5, version := 5 }] := by
  refine ⟨by decide, by decide, by decide⟩

/-- C2: for every message type of the codec and every well-formed message m
(all optional-field presence combinations included), decoding the encoding
of m yields m. -/
theorem C2_codec_roundtrip :
    (∀ m : Note, WFNote m → ∃ bs, encodeNote m = some bs ∧ decodeNote bs = some m) ∧
    (∀ m : CreateNoteRequest, WFCreateNoteRequest m →
      decodeCreateNoteRequest (encodeCreateNoteRequest m) = some m) ∧
    (∀ m : CreateNoteResponse, WFCreateNoteResponse m →
      ∃ bs, encodeCreateNoteResponse m = some bs ∧ decodeCreateNoteResponse bs = some m) ∧
    (∀ m : GetNoteResponse, WFGetNoteResponse m →
      ∃ bs, encodeGetNoteResponse m = some bs ∧ decodeGetNoteResponse bs = some m) ∧
    (∀ m : ListNotesResponse, WFListNotesResponse m →
      ∃ bs, encodeListNotesResponse m = some bs ∧ decodeListNotesResponse bs = some m) ∧
    (∀ m : UpdateNoteRequest, WFUpdateNoteRequest m →
      decodeUpdateNoteRequest (encodeUpdateNoteRequest m) = some m) ∧
    (∀ m : UpdateNoteResponse, WFUpdateNoteResponse m →
      ∃ bs, encodeUpdateNoteResponse m = some bs ∧ decodeUpdateNoteResponse bs = some m) ∧
    (∀ m : DeleteNoteResponse, WFDeleteNoteResponse m →
      ∃ bs, encodeDeleteNoteResponse m = some bs ∧ decodeDeleteNoteResponse bs = some m) ∧
    (∀ m : NoteDelta, WFNoteDelta m →
      ∃ bs, encodeNoteDelta m = some bs ∧ decodeNoteDelta bs = some m) ∧
    (∀ m : NoteDeleted, WFNoteDeleted m →
      ∃ bs, encodeNoteDeleted m = some bs ∧ decodeNoteDeleted bs = some m) ∧
    (∀ m : NoteEvent, WFNoteEvent m →
      ∃ bs, encodeNoteEvent m = some bs ∧ decodeNoteEvent bs = some m) := by
  refine ⟨?_, ?_, ?_, ?_, ?_, ?_, ?_, ?_, ?_, ?_, ?_⟩
  · exact fun m hm => ⟨_, encodeNote_chunks m hm, decodeNote_chunks m hm⟩
  · intro m hm
    rw [encodeCreateNoteRequest_chunks]
    exact decodeCreateNoteRequest_chunks m hm
  · exact fun m hm => ⟨_, encodeCreateNoteResponse_chunks m hm,
      decodeCreateNoteResponse_chunks m hm⟩
  · exact fun m hm => ⟨_, encodeGetNoteResponse_chunks m hm,
      decodeGetNoteResponse_chunks m hm⟩
  · exact fun m hm => ⟨_, encodeListNotesResponse_chunks m hm,
      decodeListNotesResponse_chunks m hm⟩
  · intro m hm
    rw [encodeUpdateNoteRequest_chunks]
    exact decodeUpdateNoteRequest_chunks m hm
  · exact fun m hm => ⟨_, encodeUpdateNoteResponse_chunks m hm,
      decodeUpdateNoteResponse_chunks m hm⟩
  · exact fun m hm => ⟨_, encodeDeleteNoteResponse_chunks m hm,
      decodeDeleteNoteResponse_chunks m hm⟩
  · exact fun m hm => ⟨_, encodeNoteDelta_chunks m hm, decodeNoteDelta_chunks m hm⟩
  · exact fun m hm => ⟨_, encodeNoteDeleted_chunks m hm, decodeNoteDeleted_chunks m hm⟩
  · exact fun m hm => ⟨_, encodeNoteEvent_chunks m hm, decodeNoteEvent_chunks m hm⟩

/-- Witness for C2 at concrete messages: a Note with set fields, and a
NoteEvent carrying a delta with one optional field absent. -/
theorem C2_codec_roundtrip_witness :
    (∃ bs,
      encodeNote { id := 1, title := [72, 105], body := [], createdAtUnixMs := 2, updatedAtUnixMs := 3, version := 4 } = some bs ∧
      decodeNote bs = some { id := 1, title := [72, 105], body := [], createdAtUnixMs := 2, updatedAtUnixMs := 3, version := 4 }) ∧
    (∃ bs,
      encodeNoteEvent { event := some (.updated { id := 7, title := none, body := some [33], updatedAtUnixMs := 9, version := 2 }) } = some bs ∧
      decodeNoteEvent bs = some { event := some (.updated { id := 7, title := none, body := some [33], updatedAtUnixMs := 9, version := 2 }) }) :=
  ⟨C2_codec_roundtrip.1 _ (by decide),
   C2_codec_roundtrip.2.2.2.2.2.2.2.2.2.2 _ (by decide)⟩

/-- C3: applyDelta is a no-op for an unknown id, merges optional fields over
the existing note otherwise (updatedAtUnixMs/version taken unconditionally),
matches the concrete partial-delta example, and keeps the empty collection
empty. -/
theorem C3_applyDelta_semantics :
    (∀ (notes : List Note) (delta : NoteDelta),
        (∀ c ∈ notes, c.id ≠ delta.id) → applyDelta notes delta = notes) ∧
    (∀ (notes : List Note) (delta : NoteDelta) (existing : Note),
        (notes.map Note.id).Nodup → existing ∈ notes → existing.id = delta.id →
        applyDelta notes delta =
          upsertNote notes
            { existing with
              title := delta.title.getD existing.title
              body := delta.body.getD existing.body
              updatedAtUnixMs := delta.updatedAtUnixMs
              version := delta.version }) ∧
    applyDelta
        [{ id := 1, title := [65], body := [66], createdAtUnixMs := 0,
           updatedAtUnixMs := 0, version := 1 }]
        { id := 1, title := none, body := some [67], updatedAtUnixMs := 2, version := 2 }
      = [{ id := 1, title := [65], body := [67], createdAtUnixMs := 0,
           updatedAtUnixMs := 2, version := 2 }] ∧
    (∀ delta : NoteDelta, applyDelta [] delta = []) := by
  refine ⟨?_, ?_, by decide, fun delta => rfl⟩
  · intro notes delta h
    unfold applyDelta
    have hfind : notes.find? (fun candidate => candidate.id == delta.id) = none := by
      rw [List.find?_eq_none]
      intro x hx
      simp [h x hx]
    rw [hfind]
  · intro notes delta existing hnd hmem hid
    unfold applyDelta
    rw [find?_eq_of_nodup hnd hmem hid]

/-- Witness for C3 at concrete inputs: unknown-id no-op and the merge shape. -/
theorem C3_applyDelta_semantics_witness :
    applyDelta
        [{ id := 4, title := [], body := [], createdAtUnixMs := 0,
           updatedAtUnixMs := 0, version := 1 }]
        { id := 9, title := some [88], body := none, updatedAtUnixMs := 5, version := 5 }
      = [{ id := 4, title := [], body := [], createdAtUnixMs := 0,
           updatedAtUnixMs := 0, version := 1 }] :=
  C3_applyDelta_semantics.1 _ _ (by decide)

/-- C4: with duplicate-free ids, upserting a set of notes in any insertion
order produces one and the same sorted sequence (updatedAtUnixMs descending,
ties broken by id descending); in particular all six insertion orders of
the [5,5,3]/[10,20,30] example yield [id20, id10, id30]. -/
theorem C4_upsert_order_invariance :
    (∀ l₁ l₂ : List Note, ((l₁.map Note.id).Nodup) → l₁.Perm l₂ →
        List.foldl upsertNote [] l₁ = List.foldl upsertNote [] l₂ ∧
        List.Sorted noteLE (List.foldl upsertNote [] l₁)) ∧
    (∀ p : List Note,
        p.Perm [{ id := 10, title := [], body := [], createdAtUnixMs := 0,
                  updatedAtUnixMs := 5, version := 0 },
                { id := 20, title := [], body := [], createdAtUnixMs := 0,
                  updatedAtUnixMs := 5, version := 0 },
                { id := 30, title := [], body := [], createdAtUnixMs := 0,
                  updatedAtUnixMs := 3, version := 0 }] →
        List.foldl upsertNote [] p
          = [{ id := 20, title := [], body := [], createdAtUnixMs := 0,
               updatedAtUnixMs := 5, version := 0 },
             { id := 10, title := [], body := [], createdAtUnixMs := 0,
               updatedAtUnixMs := 5, version := 0 },
             { id := 30, title := [], body := [], createdAtUnixMs := 0,
               updatedAtUnixMs := 3, version := 0 }]) := by
  have main : ∀ l₁ l₂ : List Note, ((l₁.map Note.id).Nodup) → l₁.Perm l₂ →
      List.foldl upsertNote [] l₁ = List.foldl upsertNote [] l₂ ∧
      List.Sorted noteLE (List.foldl upsertNote [] l₁) := by
    intro l₁ l₂ hnd hperm
    have h₁ := foldl_upsert_sorted l₁ [] List.sorted_nil hnd
    have hnd₂ : (l₂.map Note.id).Nodup := (hperm.map Note.id).nodup hnd
    have h₂ := foldl_upsert_sorted l₂ [] List.sorted_nil hnd₂
    have hp : (List.foldl upsertNote [] l₁).Perm (List.foldl upsertNote [] l₂) :=
      (h₁.2.trans hperm).trans h₂.2.symm
    have hids : ((List.foldl upsertNote [] l₁).map Note.id).Nodup :=
      ((h₁.2.map Note.id).symm).nodup hnd
    exact ⟨sorted_unique hp h₁.1 h₂.1 hids, h₁.1⟩
  refine ⟨main, ?_⟩
  intro p hp
  have hstd := main _ p (by decide) hp.symm
  rw [← hstd.1]
  decide

/-- Witness for C4 at a concrete permutation pair. -/
theorem C4_upsert_order_invariance_witness :
    List.foldl upsertNote []
        [{ id := 30, title := [], body := [], createdAtUnixMs := 0,
           updatedAtUnixMs := 3, version := 0 },
         { id := 20, title := [], body := [], createdAtUnixMs := 0,
           updatedAtUnixMs := 5, version := 0 },
         { id := 10, title := [], body := [], createdAtUnixMs := 0,
           updatedAtUnixMs := 5, version := 0 }]
      = [{ id := 20, title := [], body := [], createdAtUnixMs := 0,
           updatedAtUnixMs := 5, version := 0 },
         { id := 10, title := [], body := [], createdAtUnixMs := 0,
           updatedAtUnixMs := 5, version := 0 },
         { id := 30, title := [], body := [], createdAtUnixMs := 0,
           updatedAtUnixMs := 3, version := 0 }] :=
  C4_upsert_order_invariance.2 _ (by decide)

/-- C5: decode failures are total: reading past the end of the buffer, an
oversized length-delimited declaration, a varint exceeding its bit budget,
an unsupported wire type during skip, each yield an error, and a truncated
message fails the whole decode with no partial result. -/
theorem C5_decode_errors :
    (∀ shift acc : Nat, readVarintAux [] shift acc = none) ∧
    (∀ (b : Nat) (rest : List Nat) (shift acc : Nat),
        0x80 ≤ b % 0x100 → 57 ≤ shift → readVarintAux (b :: rest) shift acc = none) ∧
    (∀ (l : List Nat) (len : Nat) (rest : List Nat),
        readVarint l = some (len, rest) → rest.length < len → readBytes l = none) ∧
    (∀ (l : List Nat) (len : Nat) (rest : List Nat),
        readVarint l = some (len, rest) → rest.length < len → skipField 2 l = none) ∧
    (∀ (w : Nat) (l : List Nat), w ≠ 0 → w ≠ 2 → skipField w l = none) ∧
    (∀ l : List Nat, (∀ b ∈ l, 0x80 ≤ b % 0x100) → readVarint l = none) ∧
    (∀ (m : Note) (bs : List Nat), WFNote m → encodeNote m = some bs →
        decodeNote bs.dropLast = none) := by
  refine ⟨fun shift acc => rfl, ?_, ?_, ?_, ?_, ?_, ?_⟩
  · intro b rest shift acc hb hs
    simp only [readVarintAux, if_neg (by omega : ¬ b % 0x100 < 0x80),
      if_pos (by omega : shift + 7 > 63)]
  · intro l len rest hv hlen
    unfold readBytes
    rw [hv]
    simp [hlen]
  · intro l len rest hv hlen
    unfold skipField
    rw [if_neg (by norm_num), if_pos rfl, hv]
    simp [hlen]
  · intro w l hw0 hw2
    unfold skipField
    rw [if_neg hw0, if_neg hw2]
  · intro l h
    exact readVarintAux_all_continuation l 0 0 h
  · intro m bs hm henc
    rw [encodeNote_chunks m hm] at henc
    cases henc
    exact decodeNote_encode_dropLast m hm

/-- Witness for C5 at concrete buffers: a continuation byte at the end of
input, a length prefix exceeding the buffer, an unsupported wire type, and
a truncated encoded Note. -/
theorem C5_decode_errors_witness :
    readVarintAux [] 0 0 = none ∧
    readVarintAux [0x80] 57 0 = none ∧
    readBytes [5, 1, 2] = none ∧
    skipField 2 [5, 1, 2] = none ∧
    skipField 5 [0] = none ∧
    readVarint [0x80, 0x80] = none ∧
    decodeNote ((noteChunks { id := 1, title := [], body := [], createdAtUnixMs := 0, updatedAtUnixMs := 0, version := 300 }).flatten.dropLast) = none := by
  refine ⟨C5_decode_errors.1 0 0,
    C5_decode_errors.2.1 0x80 [] 57 0 (by decide) (by decide),
    C5_decode_errors.2.2.1 [5, 1, 2] 5 [1, 2] (by decide) (by decide),
    C5_decode_errors.2.2.2.1 [5, 1, 2] 5 [1, 2] (by decide) (by decide),
    C5_decode_errors.2.2.2.2.1 5 [0] (by decide) (by decide),
    C5_decode_errors.2.2.2.2.2.1 [0x80, 0x80] (by decide),
    C5_decode_errors.2.2.2.2.2.2 _ _ (by decide)
      (encodeNote_chunks _ (by decide))⟩

/-- C6: integer fields are exact or rejected: encoding a negative or
non-finite value is an error (numberToVarint and writeInt64 fail), and
decoding an integer field whose varint value exceeds the safe-integer range
fails rather than truncating. -/
theorem C6_integer_fields :
    (∀ v : Int, v < 0 → numberToVarint (.int v) = none) ∧
    numberToVarint .nonFinite = none ∧
    (∀ (f : Nat) (v : Int), v < 0 → writeInt64 f (.int v) = none) ∧
    (∀ f : Nat, writeInt64 f .nonFinite = none) ∧
    (∀ (l : List Nat) (v : Nat) (rest : List Nat),
        readVarint l = some (v, rest) → MAX_SAFE_INTEGER < v → readInt64 l = none) := by
  have hneg : ∀ v : Int, v < 0 → numberToVarint (.int v) = none := by
    intro v hv
    simp only [numberToVarint]
    rw [if_pos hv]
  refine ⟨hneg, rfl, ?_, fun f => rfl, ?_⟩
  · intro f v hv
    unfold writeInt64
    rw [hneg v hv]
    rfl
  · intro l v rest hv hbig
    unfold readInt64
    rw [hv]
    simp [hbig]

/-- Witness for C6: the value -1 is rejected on encode, and the varint of
2^53 (one past the safe range) is rejected on decode. -/
theorem C6_integer_fields_witness :
    numberToVarint (.int (-1)) = none ∧
    writeInt64 1 (.int (-1)) = none ∧
    readInt64 [0x80, 0x80, 0x80, 0x80, 0x80, 0x80, 0x80, 0x10] = none := by
  refine ⟨C6_integer_fields.1 (-1) (by decide),
    C6_integer_fields.2.2.1 1 (-1) (by decide),
    C6_integer_fields.2.2.2.2 _ (2 ^ 53) [] (by decide) (by decide)⟩

/-- C7: forward compatibility — for every message type, decoding a valid
encoded buffer with unknown fields (varint or length-delimited wire type,
out-of-schema field number) injected at arbitrary chunk boundaries succeeds
and yields the same message as decoding the buffer without them. -/
theorem C7_unknown_fields_skipped :
    (∀ (m : Note) (ds : List (List Nat)), WFNote m →
      Interleaved (IsUnknownChunk [1, 2, 3, 4, 5, 6]) (noteChunks m) ds →
      decodeNote ds.flatten = decodeNote (noteChunks m).flatten ∧
        decodeNote ds.flatten = some m) ∧
    (∀ (m : CreateNoteRequest) (ds : List (List Nat)), WFCreateNoteRequest m →
      Interleaved (IsUnknownChunk [1, 2]) (createNoteRequestChunks m) ds →
      decodeCreateNoteRequest ds.flatten
          = decodeCreateNoteRequest (createNoteRequestChunks m).flatten ∧
        decodeCreateNoteRequest ds.flatten = some m) ∧
    (∀ (m : CreateNoteResponse) (ds : List (List Nat)), WFCreateNoteResponse m →
      Interleaved (IsUnknownChunk [1]) (createNoteResponseChunks m) ds →
      decodeCreateNoteResponse ds.flatten
          = decodeCreateNoteResponse (createNoteResponseChunks m).flatten ∧
        decodeCreateNoteResponse ds.flatten = some m) ∧
    (∀ (m : GetNoteResponse) (ds : List (List Nat)), WFGetNoteResponse m →
      Interleaved (IsUnknownChunk [1]) (getNoteResponseChunks m) ds →
      decodeGetNoteResponse ds.flatten
          = decodeGetNoteResponse (getNoteResponseChunks m).flatten ∧
        decodeGetNoteResponse ds.flatten = some m) ∧
    (∀ (m : ListNotesResponse) (ds : List (List Nat)), WFListNotesResponse m →
      Interleaved (IsUnknownChunk [1]) (listNotesResponseChunks m) ds →
      decodeListNotesResponse ds.flatten
          = decodeListNotesResponse (listNotesResponseChunks m).flatten ∧
        decodeListNotesResponse ds.flatten = some m) ∧
    (∀ (m : UpdateNoteRequest) (ds : List (List Nat)), WFUpdateNoteRequest m →
      Interleaved (IsUnknownChunk [1, 2]) (updateNoteRequestChunks m) ds →
      decodeUpdateNoteRequest ds.flatten
          = decodeUpdateNoteRequest (updateNoteRequestChunks m).flatten ∧
        decodeUpdateNoteRequest ds.flatten = some m) ∧
    (∀ (m : UpdateNoteResponse) (ds : List (List Nat)), WFUpdateNoteResponse m →
      Interleaved (IsUnknownChunk [1]) (updateNoteResponseChunks m) ds →
      decodeUpdateNoteResponse ds.flatten
          = decodeUpdateNoteResponse (updateNoteResponseChunks m).flatten ∧
        decodeUpdateNoteResponse ds.flatten = some m) ∧
    (∀ (m : DeleteNoteResponse) (ds : List (List Nat)), WFDeleteNoteResponse m →
      Interleaved (IsUnknownChunk [1]) (deleteNoteResponseChunks m) ds →
      decodeDeleteNoteResponse ds.flatten
          = decodeDeleteNoteResponse (deleteNoteResponseChunks m).flatten ∧
        decodeDeleteNoteResponse ds.flatten = some m) ∧
    (∀ (m : NoteDelta) (ds : List (List Nat)), WFNoteDelta m →
      Interleaved (IsUnknownChunk [1, 2, 3, 4, 5]) (noteDeltaChunks m) ds →
      decodeNoteDelta ds.flatten = decodeNoteDelta (noteDeltaChunks m).flatten ∧
        decodeNoteDelta ds.flatten = some m) ∧
    (∀ (m : NoteDeleted) (ds : List (List Nat)), WFNoteDeleted m →
      Interleaved (IsUnknownChunk [1]) (noteDeletedChunks m) ds →
      decodeNoteDeleted ds.flatten = decodeNoteDeleted (noteDeletedChunks m).flatten ∧
        decodeNoteDeleted ds.flatten = some m) ∧
    (∀ (m : NoteEvent) (ds : List (List Nat)), WFNoteEvent m →
      Interleaved (IsUnknownChunk [1, 2, 3]) (noteEventChunks m) ds →
      decodeNoteEvent ds.flatten = decodeNoteEvent (noteEventChunks m).flatten ∧
        decodeNoteEvent ds.flatten = some m) := by
  refine ⟨?_, ?_, ?_, ?_, ?_, ?_, ?_, ?_, ?_, ?_, ?_⟩
  · intro m ds hm hds
    have h := interleaved_loop_eq decodeNoteAux _ decodeNoteAux_skipUnknown hds
      (noteChunks_steps m hm) defaultNote
    have hrt := decodeNote_chunks m hm
    exact ⟨h, by rw [decodeNote] at hrt ⊢; rw [h, hrt]⟩
  · intro m ds hm hds
    have h := interleaved_loop_eq decodeCreateNoteRequestAux _
      decodeCreateNoteRequestAux_skipUnknown hds (createNoteRequestChunks_steps m hm)
      { title := [], body := [] }
    have hrt := decodeCreateNoteRequest_chunks m hm
    exact ⟨h, by rw [decodeCreateNoteRequest] at hrt ⊢; rw [h, hrt]⟩
  · intro m ds hm hds
    have h := interleaved_loop_eq decodeCreateNoteResponseAux _
      decodeCreateNoteResponseAux_skipUnknown hds (createNoteResponseChunks_steps m hm)
      { note := none }
    have hrt := decodeCreateNoteResponse_chunks m hm
    exact ⟨h, by rw [decodeCreateNoteResponse] at hrt ⊢; rw [h, hrt]⟩
  · intro m ds hm hds
    have h := interleaved_loop_eq decodeGetNoteResponseAux _
      decodeGetNoteResponseAux_skipUnknown hds (getNoteResponseChunks_steps m hm)
      { note := none }
    have hrt := decodeGetNoteResponse_chunks m hm
    exact ⟨h, by rw [decodeGetNoteResponse] at hrt ⊢; rw [h, hrt]⟩
  · intro m ds hm hds
    have h := interleaved_loop_eq decodeListNotesResponseAux _
      decodeListNotesResponseAux_skipUnknown hds (listNotesResponseChunks_steps m hm)
      { notes := [] }
    have hrt := decodeListNotesResponse_chunks m hm
    exact ⟨h, by rw [decodeListNotesResponse] at hrt ⊢; rw [h, hrt]⟩
  · intro m ds hm hds
    have h := interleaved_loop_eq decodeUpdateNoteRequestAux _
      decodeUpdateNoteRequestAux_skipUnknown hds (updateNoteRequestChunks_steps m hm)
      { title := none, body := none }
    have hrt := decodeUpdateNoteRequest_chunks m hm
    exact ⟨h, by rw [decodeUpdateNoteRequest] at hrt ⊢; rw [h, hrt]⟩
  · intro m ds hm hds
    have h := interleaved_loop_eq decodeUpdateNoteResponseAux _
      decodeUpdateNoteResponseAux_skipUnknown hds (updateNoteResponseChunks_steps m hm)
      { note := none }
    have hrt := decodeUpdateNoteResponse_chunks m hm
    exact ⟨h, by rw [decodeUpdateNoteResponse] at hrt ⊢; rw [h, hrt]⟩
  · intro m ds hm hds
    have h := interleaved_loop_eq decodeDeleteNoteResponseAux _
      decodeDeleteNoteResponseAux_skipUnknown hds (deleteNoteResponseChunks_steps m hm)
      { id := 0 }
    have hrt := decodeDeleteNoteResponse_chunks m hm
    exact ⟨h, by rw [decodeDeleteNoteResponse] at hrt ⊢; rw [h, hrt]⟩
  · intro m ds hm hds
    have h := interleaved_loop_eq decodeNoteDeltaAux _
      decodeNoteDeltaAux_skipUnknown hds (noteDeltaChunks_steps m hm) defaultNoteDelta
    have hrt := decodeNoteDelta_chunks m hm
    exact ⟨h, by rw [decodeNoteDelta] at hrt ⊢; rw [h, hrt]⟩
  · intro m ds hm hds
    have h := interleaved_loop_eq decodeNoteDeletedAux _
      decodeNoteDeletedAux_skipUnknown hds (noteDeletedChunks_steps m hm) { id := 0 }
    have hrt := decodeNoteDeleted_chunks m hm
    exact ⟨h, by rw [decodeNoteDeleted] at hrt ⊢; rw [h, hrt]⟩
  · intro m ds hm hds
    have h := interleaved_loop_eq decodeNoteEventAux _
      decodeNoteEventAux_skipUnknown hds (noteEventChunks_steps m hm) { event := none }
    have hrt := decodeNoteEvent_chunks m hm
    exact ⟨h, by rw [decodeNoteEvent] at hrt ⊢; rw [h, hrt]⟩

/-- Witness for C7: an unknown varint field (number 7) injected before the
fields of a concrete Note, and an unknown length-delimited field (number 9)
injected in the middle. -/
theorem C7_unknown_fields_skipped_witness :
    decodeNote ((encodeUnknownField 7 (.varintField 9)
        :: noteChunks { id := 3, title := [65], body := [], createdAtUnixMs := 1, updatedAtUnixMs := 2, version := 1 }).flatten)
      = decodeNote ((noteChunks { id := 3, title := [65], body := [], createdAtUnixMs := 1, updatedAtUnixMs := 2, version := 1 }).flatten) ∧
    decodeNote ((encodeUnknownField 7 (.varintField 9)
        :: noteChunks { id := 3, title := [65], body := [], createdAtUnixMs := 1, updatedAtUnixMs := 2, version := 1 }).flatten)
      = some { id := 3, title := [65], body := [], createdAtUnixMs := 1, updatedAtUnixMs := 2, version := 1 } :=
  C7_unknown_fields_skipped.1
    { id := 3, title := [65], body := [], createdAtUnixMs := 1, updatedAtUnixMs := 2, version := 1 }
    _ (by decide)
    (Interleaved.junk _ ⟨7, .varintField 9, by norm_num, by decide, by norm_num [UnknownField.WF], rfl⟩
      (Interleaved.keep _ (Interleaved.keep _ (Interleaved.keep _ (Interleaved.keep _
        (Interleaved.keep _ (Interleaved.keep _ Interleaved.nil)))))))

/-- C10: decoding a NoteEvent buffer made of member field chunks does not
fail; it returns the member whose field appears last, and the empty event
(event undefined) when no member field is present. -/
theorem C10_event_last_member_wins :
    ∀ es : List NoteEventCase, (∀ e ∈ es, WFEventCase e) →
      decodeNoteEvent (List.flatten (es.map memberChunk))
        = some { event := es.getLast? } := by
  intro es hes
  rw [decodeNoteEvent, decodeNoteEventAux_members es hes, foldl_keepLast]
  cases es.getLast? <;> rfl

/-- Witness for C10: a buffer holding a created member followed by a deleted
member decodes to the deleted member; the empty buffer decodes to the empty
event. -/
theorem C10_event_last_member_wins_witness :
    decodeNoteEvent (List.flatten
        ([.created { id := 1, title := [], body := [], createdAtUnixMs := 0, updatedAtUnixMs := 0, version := 1 },
          .deleted { id := 2 }].map memberChunk))
      = some { event := ([.created { id := 1, title := [], body := [], createdAtUnixMs := 0, updatedAtUnixMs := 0, version := 1 },
          .deleted { id := 2 }] : List NoteEventCase).getLast? } ∧
    decodeNoteEvent (List.flatten (([] : List NoteEventCase).map memberChunk))
      = some { event := ([] : List NoteEventCase).getLast? } :=
  ⟨C10_event_last_member_wins _ (by decide), C10_event_last_member_wins [] (by decide)⟩

/-- C8: removeNote deletes the note with the id when present, is a no-op
(and not an error) when absent, and is idempotent. -/
theorem C8_remove_semantics :
    (∀ (notes : List Note) (i : Nat),
        removeNote (removeNote notes i) i = removeNote notes i) ∧
    (∀ (notes : List Note) (i : Nat),
        (∀ c ∈ notes, c.id ≠ i) → removeNote notes i = notes) ∧
    (∀ (notes : List Note) (i : Nat) (n : Note), n ∈ removeNote notes i → n.id ≠ i) ∧
    (∀ (notes : List Note) (i : Nat) (n : Note),
        n ∈ notes → n.id ≠ i → n ∈ removeNote notes i) := by
  refine ⟨?_, ?_, ?_, ?_⟩
  · intro notes i
    simp [removeNote, List.filter_filter]
  · intro notes i h
    rw [removeNote, List.filter_eq_self]
    intro a ha
    simp [h a ha]
  · intro notes i n hn
    rw [removeNote, List.mem_filter] at hn
    simpa using hn.2
  · intro notes i n hn hne
    rw [removeNote, List.mem_filter]
    exact ⟨hn, by simp [hne]⟩

/-- Witness for C8 at a concrete collection: deleting id 1 empties it and a
second delete is a no-op. -/
theorem C8_remove_semantics_witness :
    removeNote (removeNote [{ id := 1, title := [], body := [], createdAtUnixMs := 0, updatedAtUnixMs := 0, version := 1 }] 1) 1
      = removeNote [{ id := 1, title := [], body := [], createdAtUnixMs := 0, updatedAtUnixMs := 0, version := 1 }] 1 ∧
    removeNote [{ id := 2, title := [], body := [], createdAtUnixMs := 0, updatedAtUnixMs := 0, version := 1 }] 1
      = [{ id := 2, title := [], body := [], createdAtUnixMs := 0, updatedAtUnixMs := 0, version := 1 }] :=
  ⟨C8_remove_semantics.1 _ 1, C8_remove_semantics.2.1 _ 1 (by decide)⟩

/-- C9: every reconciler operation preserves duplicate-freeness of ids, and
after an upsert the upserted id occurs exactly once. -/
theorem C9_id_uniqueness :
    ∀ notes : List Note, (notes.map Note.id).Nodup →
      (∀ note : Note, ((upsertNote notes note).map Note.id).Nodup ∧
          List.count note.id ((upsertNote notes note).map Note.id) = 1) ∧
      (∀ delta : NoteDelta, ((applyDelta notes delta).map Note.id).Nodup) ∧
      (∀ i : Nat, ((removeNote notes i).map Note.id).Nodup) := by
  intro notes hnd
  refine ⟨fun note => upsertNote_map_id hnd, ?_, ?_⟩
  · intro delta
    unfold applyDelta
    cases hfind : notes.find? (fun candidate => candidate.id == delta.id) with
    | none => exact hnd
    | some existing => exact (upsertNote_map_id hnd).1
  · intro i
    unfold removeNote
    exact hnd.sublist ((List.filter_sublist notes).map Note.id)

/-- Witness for C9 at a concrete two-note collection. -/
theorem C9_id_uniqueness_witness :
    ((upsertNote [{ id := 1, title := [], body := [], createdAtUnixMs := 0, updatedAtUnixMs := 0, version := 1 }] { id := 1, title := [70], body := [], createdAtUnixMs := 0, updatedAtUnixMs := 9, version := 2 }).map Note.id).Nodup ∧
    List.count 1 ((upsertNote [{ id := 1, title := [], body := [], createdAtUnixMs := 0, updatedAtUnixMs := 0, version := 1 }] { id := 1, title := [70], body := [], createdAtUnixMs := 0, updatedAtUnixMs := 9, version := 2 }).map Note.id) = 1 :=
  ⟨((C9_id_uniqueness [{ id := 1, title := [], body := [], createdAtUnixMs := 0, updatedAtUnixMs := 0, version := 1 }] (by decide)).1 _).1,
   ((C9_id_uniqueness [{ id := 1, title := [], body := [], createdAtUnixMs := 0, updatedAtUnixMs := 0, version := 1 }] (by decide)).1 { id := 1, title := [70], body := [], createdAtUnixMs := 0, updatedAtUnixMs := 9, version := 2 }).2⟩

end NotesApp
